import Mathlib

/-!
# datagen

A shallow embedding of `src/datagen.cpp` and the properties its specification states.

Conventions of the embedding:

* `int` is a 32-bit two's-complement integer: a value is an `Int`, and the result of an
  increment is reduced by `wrapInt`; `size_t` is a `Nat` below `2 ^ 64`, and an `int` that
  is compared with or converted to a `size_t` goes through `toSizeT`.
* `std::string` is `String`; the heap is unbounded, but `std::string(n, c)` throws
  `std::length_error` when `n` exceeds `string_max_size`, as the library does.
* The C library's random source is `RandState`, the stream of values later calls of
  `rand()` deliver; `srand` and `time` are supplied by the environment.
* A C++ exception or a fault is an `Except.error` carrying a `Fault`.
-/

namespace Datagen

/-! ## Machine integers -/

/-- Largest value of the type `int`. -/
def INT_MAX : Int := 2147483647

/-- Smallest value of the type `int`. -/
def INT_MIN : Int := -2147483648

/-- Largest value of the type `size_t`. -/
def SIZE_MAX : Nat := 18446744073709551615

/-- Reduction of an integer modulo `2 ^ 32` into the range of `int`: what an `int`
holds after an arithmetic step whose exact result is `v`. -/
def wrapInt (v : Int) : Int := (v + 2147483648) % 4294967296 - 2147483648

/-- Conversion of an `int` to `size_t`: reduction modulo `2 ^ 64`. -/
def toSizeT (v : Int) : Nat := (v % 18446744073709551616).toNat

/-- Decimal text of an `int`, as `std::to_string(int)` gives it: a minus sign for a
negative value, then the digits of the magnitude. -/
def to_string (v : Int) : String :=
  if v < 0 then "-" ++ Nat.repr v.natAbs else Nat.repr v.toNat

/-! ## Exceptions and faults -/

/-- What can stop a call: the exceptions `main` catches (all derive from
`std::exception`) and the one fault it cannot catch. -/
inductive Fault where
  /-- Thrown by `ptree::get_child` when the path names no node; carries the path. -/
  | ptree_bad_path (path : List String)
  /-- Thrown by `std::stoi` when the text starts with no number. -/
  | invalid_argument
  /-- Thrown by `std::stoi` when the number does not fit an `int`. -/
  | out_of_range
  /-- Thrown by `std::string(n, c)` when `n` exceeds `max_size()`. -/
  | length_error
  /-- Integer remainder by zero: undefined behaviour, not an exception. -/
  | division_by_zero
  /-- A loop of the model was given too few steps; `main_fuel` shows that no run ends so. -/
  | out_of_fuel
  deriving DecidableEq, Repr

/-- Whether `catch (std::exception const&)` in `main` handles the fault. -/
def Fault.isException : Fault → Bool
  | .division_by_zero => false
  | .out_of_fuel => false
  | _ => true

/-! ## `ColumnDataGeneratorSequence` -/

/-- The sequence generator: its only field is the counter `int seed_`. -/
structure ColumnDataGeneratorSequence where
  seed_ : Int
  deriving DecidableEq, Repr

namespace ColumnDataGeneratorSequence

/-- Source: `return "sequence";`. -/
def str (_g : ColumnDataGeneratorSequence) : String := "sequence"

/-- Source: `return to_string(seed_++);`: the text of the current counter, and the
generator with the counter incremented. -/
def getNext (g : ColumnDataGeneratorSequence) : String × ColumnDataGeneratorSequence :=
  (to_string g.seed_, { seed_ := wrapInt (g.seed_ + 1) })

/-- The generator after `n` calls of `getNext`. -/
def afterCalls : Nat → ColumnDataGeneratorSequence → ColumnDataGeneratorSequence
  | 0, g => g
  | n + 1, g => afterCalls n g.getNext.2

/-- What the `i`-th call (0-indexed) of `getNext` returns. -/
def ithValue (g : ColumnDataGeneratorSequence) (i : Nat) : String :=
  (afterCalls i g).getNext.1

end ColumnDataGeneratorSequence

/-! ## The C library's random source -/

/-- State of the random source: the values the coming calls of `rand()` deliver, the
next one at index `0`. Any behaviour of the library's generator is one such stream. -/
structure RandState where
  stream : Nat → Nat

/-- Largest value `rand()` returns. -/
def RAND_MAX : Nat := 2147483647

/-- One call of `rand()`: the value delivered, an `int` in `[0, RAND_MAX]`, and the
state left behind. -/
def rand (g : RandState) : Nat × RandState :=
  (g.stream 0 % (RAND_MAX + 1), { stream := fun n => g.stream (n + 1) })

/-! ## `ColumnDataGeneratorText` -/

/-- The random-text generator: `string length_` and `size_t lengthLimit_`. -/
structure ColumnDataGeneratorText where
  length_ : String
  lengthLimit_ : Nat
  deriving DecidableEq, Repr

/-- Source: `static const char alphanum[]`, the three adjacent literals joined. -/
def alphanum : String :=
  " " ++ "0123456789" ++ "ABCDEFGHIJKLMNOPQRSTUVWXYZ" ++ "abcdefghijklmnopqrstuvwxyz"

/-- Source: `sizeof(alphanum)`: the characters and the terminating NUL. -/
def sizeof_alphanum : Nat := alphanum.length + 1

/-- Source: `alphanum[k]`; the array ends with a NUL. -/
def alphanumAt (k : Nat) : Char := alphanum.data.getD k (Char.ofNat 0)

/-- Result of `std::string::compare`: zero exactly when the two strings are equal,
negative or positive by lexicographic order otherwise. -/
def string_compare (a b : String) : Int :=
  if a = b then 0 else if a.data < b.data then -1 else 1

/-- Value of `std::string::max_size()` (libstdc++, 64-bit target). The theorems use
only that it lies between `INT_MAX` and `SIZE_MAX`. -/
def string_max_size : Nat := 4611686018427387903

namespace ColumnDataGeneratorText

/-- Source: `return "random-text";`. -/
def str (_t : ColumnDataGeneratorText) : String := "random-text"

/-- Source: `for (int i = 0; i < len; ++i) { res[i] = alphanum[rand() % (sizeof(alphanum) - 1)]; }`.
The counter `i` is an `int`, compared with the `size_t len` after conversion; each unit
of fuel pays for one test of the loop condition. -/
def fillLoop (len : Nat) : Nat → Int → List Char → RandState → Option (List Char × RandState)
  | 0, _, _, _ => none
  | fuel + 1, i, res, g =>
    if toSizeT i < len then
      let r := rand g
      fillLoop len fuel (wrapInt (i + 1))
        (res.set (toSizeT i) (alphanumAt (r.1 % (sizeof_alphanum - 1)))) r.2
    else some (res, g)

/-- Source: `size_t len = ( length_.compare("variable") ? lengthLimit_ : (rand() % lengthLimit_) );`. -/
def chooseLen (t : ColumnDataGeneratorText) (g : RandState) : Except Fault (Nat × RandState) :=
  if string_compare t.length_ "variable" ≠ 0 then .ok (t.lengthLimit_, g)
  else
    let r := rand g
    if t.lengthLimit_ = 0 then .error .division_by_zero
    else .ok (r.1 % t.lengthLimit_, r.2)

/-- Source: `ColumnDataGeneratorText::getNext`: choose the length, build
`string res(len, 0)`, overwrite it character by character, return it. The generator's
own fields do not change; the random source does. -/
def getNext (t : ColumnDataGeneratorText) (g : RandState) : Except Fault (String × RandState) :=
  match chooseLen t g with
  | .error e => .error e
  | .ok (len, g1) =>
    if string_max_size < len then .error .length_error
    else
      match fillLoop len (len + 1) 0 (List.replicate len (Char.ofNat 0)) g1 with
      | none => .error .out_of_fuel
      | some (res, g2) => .ok (String.mk res, g2)

end ColumnDataGeneratorText

/-- The alphabet as the specification describes it: the space, a digit, an upper-case
or a lower-case letter. -/
def isAlphabetChar (c : Char) : Bool :=
  c == ' ' || c.isDigit || c.isUpper || c.isLower

/-- The `n` characters `n` successive draws `alphanum[rand() % 63]` give, and the
random source after them. -/
def randChars : Nat → RandState → List Char × RandState
  | 0, g => ([], g)
  | n + 1, g =>
    let r := rand g
    let rest := randChars n r.2
    (alphanumAt (r.1 % 63) :: rest.1, rest.2)

/-! ## `ColumnDataGenerator`, `ColumnDef` -/

/-- The abstract class `ColumnDataGenerator` with its two subclasses. -/
inductive ColumnDataGenerator where
  | sequence (g : ColumnDataGeneratorSequence)
  | text (g : ColumnDataGeneratorText)
  deriving DecidableEq, Repr

namespace ColumnDataGenerator

/-- The virtual `str()`. -/
def str : ColumnDataGenerator → String
  | .sequence g => g.str
  | .text g => g.str

/-- The virtual `getNext()`: the value, the generator after the call, the random source
after the call. -/
def getNext : ColumnDataGenerator → RandState →
    Except Fault (String × ColumnDataGenerator × RandState)
  | .sequence s, g => .ok (s.getNext.1, .sequence s.getNext.2, g)
  | .text t, g =>
    match t.getNext g with
    | .error e => .error e
    | .ok (v, g1) => .ok (v, .text t, g1)

end ColumnDataGenerator

/-- The class `ColumnDef`; `dataGenerator_` is `none` for a null `unique_ptr`. -/
structure ColumnDef where
  name_ : String
  type_ : String
  dataGenerator_ : Option ColumnDataGenerator
  deriving DecidableEq, Repr

namespace ColumnDef

/-- The constructor: name and type, no generator. -/
def new (name type : String) : ColumnDef :=
  { name_ := name, type_ := type, dataGenerator_ := none }

/-- Source: `name_ + "(" + type_ + ")" + ( dataGenerator_ ? "<" + dataGenerator_->str() + ">" : "" )`. -/
def str (c : ColumnDef) : String :=
  c.name_ ++ "(" ++ c.type_ ++ ")" ++
    (match c.dataGenerator_ with
     | some d => "<" ++ d.str ++ ">"
     | none => "")

/-- Source: `return dataGenerator_ ? dataGenerator_->getNext() : "";`. -/
def getNext (c : ColumnDef) (g : RandState) : Except Fault (String × ColumnDef × RandState) :=
  match c.dataGenerator_ with
  | some d =>
    match d.getNext g with
    | .error e => .error e
    | .ok (v, d1, g1) => .ok (v, { c with dataGenerator_ := some d1 }, g1)
  | none => .ok ("", c, g)

/-- Source: `return name_;`. -/
def name (c : ColumnDef) : String := c.name_

/-- Source: `dataGenerator_ = move(unique_ptr<ColumnDataGenerator>(cdg));`. -/
def addDataGenerator (c : ColumnDef) (cdg : ColumnDataGenerator) : ColumnDef :=
  { c with dataGenerator_ := some cdg }

end ColumnDef

/-! ## `TableDef` -/

/-- The class `TableDef`: the columns in insertion order and the delimiter. -/
structure TableDef where
  columns_ : List ColumnDef
  delimiter_ : String
  deriving DecidableEq, Repr

namespace TableDef

/-- A fresh table: no column, `delimiter_ = ","`. -/
def new : TableDef := { columns_ := [], delimiter_ := "," }

/-- Source: `columns_.push_back(...)`. -/
def addColumn (t : TableDef) (col : ColumnDef) : TableDef :=
  { t with columns_ := t.columns_ ++ [col] }

/-- Source: `delimiter_ = d;`. -/
def delimiterIs (t : TableDef) (d : String) : TableDef :=
  { t with delimiter_ := d }

/-- The loop of `getHeader` over the columns from position `k` on:
`if( &c != &columns_[0] ) { res += delimiter_; }  res += c->name();`.
The element `c` is `columns_[0]` exactly when `k = 0`. -/
def getHeaderLoop (delimiter_ : String) : Nat → List ColumnDef → String → String
  | _, [], res => res
  | k, c :: cs, res =>
    let res1 := if k ≠ 0 then res ++ delimiter_ else res
    getHeaderLoop delimiter_ (k + 1) cs (res1 ++ c.name)

/-- Source: `TableDef::getHeader`. -/
def getHeader (t : TableDef) : String :=
  getHeaderLoop t.delimiter_ 0 t.columns_ ""

/-- The loop of `getNextRow` over the columns from position `k` on:
`if( &c != &columns_[0] ) { res += delimiter_; }  res += c->getNext();`.
Returns the text, the columns after their calls, the random source after them. -/
def getNextRowLoop (delimiter_ : String) :
    Nat → List ColumnDef → String → RandState → Except Fault (String × List ColumnDef × RandState)
  | _, [], res, g => .ok (res, [], g)
  | k, c :: cs, res, g =>
    let res1 := if k ≠ 0 then res ++ delimiter_ else res
    match c.getNext g with
    | .error e => .error e
    | .ok (v, c1, g1) =>
      match getNextRowLoop delimiter_ (k + 1) cs (res1 ++ v) g1 with
      | .error e => .error e
      | .ok (out, cs1, g2) => .ok (out, c1 :: cs1, g2)

/-- Source: `TableDef::getNextRow`. -/
def getNextRow (t : TableDef) (g : RandState) : Except Fault (String × TableDef × RandState) :=
  match getNextRowLoop t.delimiter_ 0 t.columns_ "" g with
  | .error e => .error e
  | .ok (out, cs, g1) => .ok (out, { t with columns_ := cs }, g1)

/-- Source: `TableDef::str`: for each column `"{" + c->str() + "}\n"`. -/
def str (t : TableDef) : String :=
  t.columns_.foldl (fun res c => res ++ ("\x7b" ++ c.str ++ "\x7d\n")) ""

end TableDef

/-- Reference for a row's fields: every column's `getNext` result, the columns taken in
list order, each call starting from the random source the previous one left. -/
def produceAll : List ColumnDef → RandState → Except Fault (List String × List ColumnDef × RandState)
  | [], g => .ok ([], [], g)
  | c :: cs, g =>
    match c.getNext g with
    | .error e => .error e
    | .ok (v, c1, g1) =>
      match produceAll cs g1 with
      | .error e => .error e
      | .ok (vs, cs1, g2) => .ok (v :: vs, c1 :: cs1, g2)

/-- Reference for `n` successive rows: the results of `n` calls of `getNextRow`. -/
def nextRows : Nat → TableDef → RandState → Except Fault (List String × TableDef × RandState)
  | 0, t, g => .ok ([], t, g)
  | n + 1, t, g =>
    match t.getNextRow g with
    | .error e => .error e
    | .ok (row, t1, g1) =>
      match nextRows n t1 g1 with
      | .error e => .error e
      | .ok (rows, t2, g2) => .ok (row :: rows, t2, g2)

/-! ## The configuration tree and `std::stoi` -/

/-- A `boost::property_tree::ptree`: the node's own text and its children in document
order, each under its key. `read_json` stores a JSON object's members under their
names, an array's elements under the empty key, and a string or number as text. -/
inductive PTree where
  | node (data : String) (children : List (String × PTree))

namespace PTree

/-- Source: `data()`. -/
def data : PTree → String
  | .node d _ => d

/-- The children, as iterating over the node visits them. -/
def children : PTree → List (String × PTree)
  | .node _ cs => cs

/-- The first child under `key`, if there is one. -/
def find (key : String) (t : PTree) : Option PTree :=
  (t.children.find? (fun kv => kv.1 == key)).map (fun kv => kv.2)

/-- Descent along a path, given as its list of keys (`"data.generator"` is
`["data", "generator"]`). -/
def walk : List String → PTree → Option PTree
  | [], t => some t
  | k :: ks, t =>
    match t.find k with
    | none => none
    | some c => walk ks c

/-- Source: `get_child(path)`: the node at the path, or `ptree_bad_path` thrown. -/
def get_child (path : List String) (t : PTree) : Except Fault PTree :=
  match t.walk path with
  | some c => .ok c
  | none => .error (.ptree_bad_path path)

end PTree

/-- White space as `std::stoi` skips it (`isspace` in the C locale). -/
def isspace (c : Char) : Bool :=
  c.toNat == 32 || (9 ≤ c.toNat && c.toNat ≤ 13)

/-- Value of a run of decimal digits. -/
def digitsValue (ds : List Char) : Nat :=
  ds.foldl (fun acc c => acc * 10 + (c.toNat - 48)) 0

/-- The optional sign `std::stoi` accepts: whether it is a minus, and the text after it. -/
def splitSign : List Char → Bool × List Char
  | c :: rest => if c = '-' then (true, rest) else if c = '+' then (false, rest) else (false, c :: rest)
  | [] => (false, [])

/-- The library function `std::stoi(const string&)`: skip white space, read an optional
sign and the longest run of decimal digits, ignore what follows; `invalid_argument`
when there is no digit, `out_of_range` when the value does not fit an `int`. -/
def stoi (s : String) : Except Fault Int :=
  let signed := splitSign (s.data.dropWhile isspace)
  let ds := signed.2.takeWhile Char.isDigit
  if ds = [] then .error .invalid_argument
  else
    let v : Int := if signed.1 then -(digitsValue ds : Int) else (digitsValue ds : Int)
    if v < INT_MIN ∨ INT_MAX < v then .error .out_of_range else .ok v

/-! ## The process environment -/

/-- What `main` runs in: the random source, the values the coming calls of `time(0)`
return (the next one at index `0`), and the state `srand(n)` installs for each `n`. -/
structure World where
  rng : RandState
  clock : Nat → Nat
  seeded : Nat → RandState

/-- Source: `time(0)`. -/
def time (w : World) : Nat × World :=
  (w.clock 0, { w with clock := fun n => w.clock (n + 1) })

/-- Source: `::srand(seed)`. -/
def srand (seed : Nat) (w : World) : World :=
  { w with rng := w.seeded seed }

/-- Source: the constructor `ColumnDataGeneratorText(string&& l, size_t ll)`: the two
fields, then `::srand(static_cast<unsigned int>(time(0)));`. -/
def ColumnDataGeneratorText.new (l : String) (ll : Nat) (w : World) :
    ColumnDataGeneratorText × World :=
  let t := time w
  ({ length_ := l, lengthLimit_ := ll }, srand (t.1 % 4294967296) t.2)

/-- Source: the constructor `ColumnDataGeneratorSequence(int s)`. -/
def ColumnDataGeneratorSequence.new (s : Int) : ColumnDataGeneratorSequence :=
  { seed_ := s }

/-! ## `main` -/

/-- The body of the loop over `pt.get_child("columns")` in `main`, up to `addColumn`:
the column built from one entry. The `int` that `stoi` returns for `length-limit`
becomes the constructor's `size_t` argument. Where C++ leaves the order of two argument
evaluations open (`name` and `type`, `data.length` and `data.length-limit`), the
arguments are read from left to right; the order decides only which of two exceptions
is reported. -/
def buildColumn (c : PTree) (w : World) : Except Fault (ColumnDef × World) :=
  match c.get_child ["name"] with
  | .error e => .error e
  | .ok n =>
    match c.get_child ["type"] with
    | .error e => .error e
    | .ok ty =>
      let col := ColumnDef.new n.data ty.data
      match c.get_child ["data", "generator"] with
      | .error e => .error e
      | .ok gen =>
        if string_compare gen.data "random-text" = 0 then
          match c.get_child ["data", "length"] with
          | .error e => .error e
          | .ok len =>
            match c.get_child ["data", "length-limit"] with
            | .error e => .error e
            | .ok lim =>
              match stoi lim.data with
              | .error e => .error e
              | .ok v =>
                let made := ColumnDataGeneratorText.new len.data (toSizeT v) w
                .ok (col.addDataGenerator (.text made.1), made.2)
        else if string_compare gen.data "sequence" = 0 then
          match c.get_child ["data", "seed"] with
          | .error e => .error e
          | .ok sd =>
            match stoi sd.data with
            | .error e => .error e
            | .ok v => .ok (col.addDataGenerator (.sequence (ColumnDataGeneratorSequence.new v)), w)
        else .ok (col, w)

/-- Source: `for(auto const& c: pt.get_child("columns")) { ... tp->addColumn(col); }`. -/
def buildColumns : List (String × PTree) → TableDef → World → Except Fault (TableDef × World)
  | [], tp, w => .ok (tp, w)
  | kv :: rest, tp, w =>
    match buildColumn kv.2 w with
    | .error e => .error e
    | .ok (col, w1) => buildColumns rest (tp.addColumn col) w1

/-- What a run of `main` leaves: the text written to standard output, and how the run
ended (`.ok ()` for a normal end, `.error e` for the exception caught and reported on
standard error, or the fault that stopped the process). -/
structure Run where
  stdout : String
  status : Except Fault Unit

/-- Source: `for(int i = 0; i < countRows; i++) { cout << tp->getNextRow() << endl; }`,
one unit of fuel for each test of the loop condition; `out` is what standard output
holds so far. -/
def rowLoop (countRows : Int) : Nat → Int → TableDef → RandState → String → Run
  | 0, _, _, _, out => { stdout := out, status := .error .out_of_fuel }
  | fuel + 1, i, tp, g, out =>
    if i < countRows then
      match tp.getNextRow g with
      | .error e => { stdout := out, status := .error e }
      | .ok (row, tp1, g1) => rowLoop countRows fuel (wrapInt (i + 1)) tp1 g1 (out ++ row ++ "\n")
    else { stdout := out, status := .ok () }

/-- Source: the `try` block of `main` from `int countRows = ...` on, for the tree `pt`
that `read_json` delivered. -/
def main (pt : PTree) (w : World) : Run :=
  match pt.get_child ["rows"] with
  | .error e => { stdout := "", status := .error e }
  | .ok r =>
    match stoi r.data with
    | .error e => { stdout := "", status := .error e }
    | .ok countRows =>
      if countRows > 0 then
        match pt.get_child ["delimiter"] with
        | .error e => { stdout := "", status := .error e }
        | .ok d =>
          let tp := TableDef.new.delimiterIs d.data
          match pt.get_child ["columns"] with
          | .error e => { stdout := "", status := .error e }
          | .ok cols =>
            match buildColumns cols.children tp w with
            | .error e => { stdout := "", status := .error e }
            | .ok (tp1, w1) =>
              rowLoop countRows (countRows.toNat + 1) 0 tp1 w1.rng ("" ++ tp1.getHeader ++ "\n")
      else { stdout := "", status := .ok () }

/-! ## Vocabulary of the specification -/

/-- Number of newline characters in a text: the number of lines of a text whose lines
are all newline-terminated. -/
def lineCount (s : String) : Nat := s.data.count (Char.ofNat 10)

/-- Number of occurrences of the non-empty text `d` in a text, found from left to right
without overlap; `skip` characters still belong to the occurrence found last. -/
def countOccurrences (d : List Char) : Nat → List Char → Nat
  | _, [] => 0
  | skip + 1, _ :: cs => countOccurrences d skip cs
  | 0, c :: cs =>
    if d.isPrefixOf (c :: cs) then 1 + countOccurrences d (d.length - 1) cs
    else countOccurrences d 0 cs

/-- Number of delimiter-separated fields of a text: one more than the number of
delimiter occurrences (an empty delimiter separates nothing). -/
def fieldCount (delimiter s : String) : Nat :=
  if delimiter = "" then 1 else countOccurrences delimiter.data 0 s.data + 1

/-- An entry of `columns` as the configuration schema asks for it: `name`, `type` and
`data.generator` present; for `random-text` also `data.length` and a `data.length-limit`
that reads as a positive integer; for `sequence` also a `data.seed` that reads as an
integer. -/
def validColumn (c : PTree) : Bool :=
  (c.walk ["name"]).isSome && (c.walk ["type"]).isSome &&
  match c.walk ["data", "generator"] with
  | none => false
  | some gen =>
    if gen.data = "random-text" then
      (c.walk ["data", "length"]).isSome &&
      match c.walk ["data", "length-limit"] with
      | none => false
      | some lim =>
        match stoi lim.data with
        | .ok v => decide (0 < v)
        | .error _ => false
    else if gen.data = "sequence" then
      match c.walk ["data", "seed"] with
      | none => false
      | some sd =>
        match stoi sd.data with
        | .ok _ => true
        | .error _ => false
    else true

/-- A configuration as the schema asks for it: `rows` reads as an integer, `delimiter`
and `columns` are present, every entry of `columns` is a valid column. -/
def validConfig (pt : PTree) : Bool :=
  (match pt.walk ["rows"] with
   | none => false
   | some r =>
     match stoi r.data with
     | .ok _ => true
     | .error _ => false) &&
  (pt.walk ["delimiter"]).isSome &&
  match pt.walk ["columns"] with
  | none => false
  | some cols => cols.children.all (fun kv => validColumn kv.2)

/-- The fields after the first, each preceded by the delimiter. -/
def joinPrefixed (d : String) : List String → String
  | [] => ""
  | x :: xs => d ++ x ++ joinPrefixed d xs

/-- Fields joined by the delimiter: nothing for no field, otherwise the first field as
it is and every later one preceded by the delimiter. -/
def joinFields (d : String) : List String → String
  | [] => ""
  | x :: xs => x ++ joinPrefixed d xs

/-- Lines as the driver writes them: each text followed by a newline. -/
def writeLines : List String → String
  | [] => ""
  | x :: xs => x ++ "\n" ++ writeLines xs

/-- The column names a `columns` node configures, in document order. -/
def configNames (cols : PTree) : List String :=
  cols.children.filterMap (fun kv => (kv.2.walk ["name"]).map PTree.data)

/-- A column whose random-text generator, if it has one, has a length limit that fits an
`int` and is positive in `"variable"` mode: what the driver builds from a valid entry. -/
def ColumnDef.wellFormed (c : ColumnDef) : Prop :=
  match c.dataGenerator_ with
  | some (.text t) =>
    t.lengthLimit_ ≤ 2147483647 ∧ (t.length_ = "variable" → 0 < t.lengthLimit_)
  | _ => True

/-- The results of `n` successive calls of a column's `getNext`. -/
def ColumnDef.values : Nat → ColumnDef → RandState →
    Except Fault (List String × ColumnDef × RandState)
  | 0, c, g => .ok ([], c, g)
  | n + 1, c, g =>
    match c.getNext g with
    | .error e => .error e
    | .ok (v, c1, g1) =>
      match ColumnDef.values n c1 g1 with
      | .error e => .error e
      | .ok (vs, c2, g2) => .ok (v :: vs, c2, g2)

/-- The errors the specification calls configuration errors: the exceptions of
`get_child` (a missing key) and of `std::stoi` (a value that is no number, or no `int`). -/
def Fault.isConfigurationError : Fault → Bool
  | .ptree_bad_path _ => true
  | .invalid_argument => true
  | .out_of_range => true
  | _ => false

/-- The result of the call of index `k` (0-indexed) of `getNextRow`, the calls before it
having succeeded. -/
def TableDef.rowAt : Nat → TableDef → RandState → Except Fault (String × TableDef × RandState)
  | 0, t, g => t.getNextRow g
  | k + 1, t, g =>
    match t.getNextRow g with
    | .error e => .error e
    | .ok (_, t1, g1) => TableDef.rowAt k t1 g1

/-- A generator without its internal state: a sequence generator's counter is set to 0,
a random-text generator (whose fields never change) is kept. -/
def ColumnDataGenerator.frozen : ColumnDataGenerator → ColumnDataGenerator
  | .sequence _ => .sequence { seed_ := 0 }
  | .text t => .text t

/-- A column without its generator's internal state: name, type label, and which
generator of which variant it has. -/
def ColumnDef.frozen (c : ColumnDef) : ColumnDef :=
  { c with dataGenerator_ := c.dataGenerator_.map ColumnDataGenerator.frozen }

/-- A table with one column, a sequence generator whose counter is `s`. -/
def seqTable (name type delimiter : String) (s : Int) : TableDef :=
  { columns_ := [{ name_ := name, type_ := type, dataGenerator_ := some (.sequence { seed_ := s }) }]
    delimiter_ := delimiter }

/-- A table with delimiter `,` and two columns: a sequence generator whose counter is
`s`, and a random-text generator with length mode `mode` and length limit 4. -/
def seqTextTable (n1 t1 n2 t2 mode : String) (s : Int) : TableDef :=
  { columns_ :=
      [{ name_ := n1, type_ := t1, dataGenerator_ := some (.sequence { seed_ := s }) },
       { name_ := n2, type_ := t2,
         dataGenerator_ := some (.text { length_ := mode, lengthLimit_ := 4 }) }]
    delimiter_ := "," }

/-- A random source delivering 0, 1, 2, ... -/
def rngCount : RandState := { stream := fun n => n }

/-- A random source delivering 0 for ever. -/
def rngZero : RandState := { stream := fun _ => 0 }

/-- An environment: the source `rngCount`, the clock at 1700000000 and one second on
with every reading, `srand(n)` installing the stream `n, n + 1, ...`. -/
def world0 : World :=
  { rng := rngCount, clock := fun k => 1700000000 + k, seeded := fun n => { stream := fun k => n + k } }

/-- A JSON string or number as a tree. -/
def leaf (s : String) : PTree := .node s []

/-- A JSON object as a tree. -/
def obj (members : List (String × PTree)) : PTree := .node "" members

/-- A JSON array as a tree. -/
def arr (elements : List PTree) : PTree := .node "" (elements.map (fun e => ("", e)))

/-- The configuration of the specification's first scenario:
rows 2, delimiter `|`, one column `id` of type `int`, a sequence from seed 5. -/
def cfgIds : PTree :=
  obj [("rows", leaf "2"), ("delimiter", leaf "|"),
    ("columns", arr [obj [("name", leaf "id"), ("type", leaf "int"),
      ("data", obj [("generator", leaf "sequence"), ("seed", leaf "5")])]])]
/-- A column entry with a sequence generator. -/
def seqEntry (name seed : String) : PTree :=
  obj [("name", leaf name), ("type", leaf "int"),
    ("data", obj [("generator", leaf "sequence"), ("seed", leaf seed)])]

/-- A column entry with a random-text generator. -/
def textEntry (name mode limit : String) : PTree :=
  obj [("name", leaf name), ("type", leaf "string"),
    ("data", obj [("generator", leaf "random-text"), ("length", leaf mode),
      ("length-limit", leaf limit)])]

/-- A configuration: the row count, the delimiter, the column entries. -/
def config (rows delimiter : String) (columns : List PTree) : PTree :=
  obj [("rows", leaf rows), ("delimiter", leaf delimiter), ("columns", arr columns)]

/-- One row, two sequence columns `a` and `b`, the delimiter a newline character. -/
def cfgNewline : PTree := config "1" "\n" [seqEntry "a" "1", seqEntry "b" "1"]

/-- One row, one column with a name and a type and no `data` block. -/
def cfgNoData : PTree := config "1" "," [obj [("name", leaf "a"), ("type", leaf "int")]]

/-- No row asked for: `rows` is -3. -/
def cfgNoRows : PTree := config "-3" "," [seqEntry "id" "5"]

/-- A column entry whose generator name is neither `sequence` nor `random-text`. -/
def entryUnknown : PTree :=
  obj [("name", leaf "note"), ("type", leaf "string"),
    ("data", obj [("generator", leaf "uuid")])]

/-- Two columns, a sequence from 1 and a random text of fixed length 4, the delimiter `,`:
the table of the specification's last scenario. -/
def tblTwo : TableDef :=
  { columns_ :=
      [{ name_ := "id"
         type_ := "int"
         dataGenerator_ := some (.sequence { seed_ := 1 }) },
       { name_ := "txt"
         type_ := "string"
         dataGenerator_ := some (.text { length_ := "fixed", lengthLimit_ := 4 }) }]
    delimiter_ := "," }

/-- Two rows from a sequence column `id` that starts at the largest `int`. -/
def cfgSeqTop : PTree := config "2" "|" [seqEntry "id" "2147483647"]

/-- One row from a sequence column `id` with seed 5, the delimiter being the text `5`. -/
def cfgDelimDigit : PTree := config "1" "5" [seqEntry "id" "5"]

/-- Two rows, one sequence column whose seed `abc` is no number. -/
def cfgBadSeed : PTree := config "2" "," [seqEntry "id" "abc"]

/-- One row, one random-text column `t` in fixed mode with the length limit -1. -/
def cfgNegLimit : PTree := config "1" "," [textEntry "t" "fixed" "-1"]

/-- One row, two random-text columns `a` and `b` of fixed length 1. -/
def cfgTwoTexts : PTree :=
  config "1" "," [textEntry "a" "fixed" "1", textEntry "b" "fixed" "1"]

theorem wrapInt_of_range (v : Int) (hlo : INT_MIN ≤ v) (hhi : v ≤ INT_MAX) :
    wrapInt v = v := by
  unfold wrapInt
  unfold INT_MIN at hlo
  unfold INT_MAX at hhi
  omega

theorem afterCalls_seed (i : Nat) (s : Int) (hlo : INT_MIN ≤ s) (hhi : s + i ≤ INT_MAX) :
    ColumnDataGeneratorSequence.afterCalls i { seed_ := s } = { seed_ := s + i } := by
  induction i generalizing s with
  | zero => simp [ColumnDataGeneratorSequence.afterCalls]
  | succ n ih =>
    have h1 : wrapInt (s + 1) = s + 1 := by
      apply wrapInt_of_range
      · unfold INT_MIN at *; omega
      · push_cast at hhi; omega
    simp only [ColumnDataGeneratorSequence.afterCalls, ColumnDataGeneratorSequence.getNext, h1]
    rw [ih (s + 1) (by unfold INT_MIN at *; omega) (by push_cast at hhi ⊢; omega)]
    congr 1
    push_cast
    ring

/-! ### Decimal text -/

theorem digitChar_toNat (d : Nat) (h : d < 10) : (Nat.digitChar d).toNat - 48 = d := by
  interval_cases d <;> rfl

theorem digitChar_isDigit (d : Nat) (h : d < 10) : (Nat.digitChar d).isDigit = true := by
  interval_cases d <;> rfl

theorem toDigitsCore_append (fuel n : Nat) (ds : List Char) :
    Nat.toDigitsCore 10 fuel n ds = Nat.toDigitsCore 10 fuel n [] ++ ds := by
  induction fuel generalizing n ds with
  | zero => simp [Nat.toDigitsCore]
  | succ f ih =>
    simp only [Nat.toDigitsCore]
    split
    · simp
    · rw [ih (n / 10) (Nat.digitChar (n % 10) :: ds), ih (n / 10) [Nat.digitChar (n % 10)]]
      simp

theorem digitsValue_append (xs : List Char) (c : Char) :
    digitsValue (xs ++ [c]) = digitsValue xs * 10 + (c.toNat - 48) := by
  simp [digitsValue, List.foldl_append]

theorem digitsValue_toDigitsCore (fuel n : Nat) (h : n < fuel) :
    digitsValue (Nat.toDigitsCore 10 fuel n []) = n := by
  induction fuel generalizing n with
  | zero => omega
  | succ f ih =>
    simp only [Nat.toDigitsCore]
    split
    · rename_i h0
      have hd := digitChar_toNat (n % 10) (Nat.mod_lt _ (by decide))
      simp only [digitsValue, List.foldl_cons, List.foldl_nil, Nat.zero_mul, Nat.zero_add]
      omega
    · rename_i h0
      rw [toDigitsCore_append, digitsValue_append, ih (n / 10) (by omega),
        digitChar_toNat (n % 10) (Nat.mod_lt _ (by decide))]
      omega

theorem toDigitsCore_isDigit (fuel n : Nat) (ds : List Char) (c : Char)
    (hc : c ∈ Nat.toDigitsCore 10 fuel n ds) : c ∈ ds ∨ c.isDigit = true := by
  induction fuel generalizing n ds with
  | zero => left; simpa [Nat.toDigitsCore] using hc
  | succ f ih =>
    simp only [Nat.toDigitsCore] at hc
    split at hc
    · rcases List.mem_cons.mp hc with h | h
      · right; rw [h]; exact digitChar_isDigit _ (Nat.mod_lt _ (by decide))
      · left; exact h
    · rcases ih _ _ hc with h | h
      · rcases List.mem_cons.mp h with h1 | h1
        · right; rw [h1]; exact digitChar_isDigit _ (Nat.mod_lt _ (by decide))
        · left; exact h1
      · right; exact h

theorem toDigitsCore_ne_nil (fuel n : Nat) (ds : List Char) :
    Nat.toDigitsCore 10 (fuel + 1) n ds ≠ [] := by
  induction fuel generalizing n ds with
  | zero => simp [Nat.toDigitsCore]
  | succ f ih =>
    rw [Nat.toDigitsCore]
    split
    · simp
    · exact ih _ _

/-- Every character of the decimal text of a natural number is a digit. -/
theorem repr_isDigit (n : Nat) (c : Char) (hc : c ∈ (Nat.repr n).data) : c.isDigit = true := by
  have h := toDigitsCore_isDigit (n + 1) n [] c (by simpa [Nat.repr, Nat.toDigits, List.asString] using hc)
  simpa using h

theorem repr_ne_nil (n : Nat) : (Nat.repr n).data ≠ [] := by
  simpa [Nat.repr, Nat.toDigits, List.asString] using toDigitsCore_ne_nil n n []

/-- The decimal text of a natural number reads back as the number. -/
theorem digitsValue_repr (n : Nat) : digitsValue (Nat.repr n).data = n := by
  simpa [Nat.repr, Nat.toDigits, List.asString] using digitsValue_toDigitsCore (n + 1) n (by omega)

theorem repr_injective (a b : Nat) (h : Nat.repr a = Nat.repr b) : a = b := by
  rw [← digitsValue_repr a, ← digitsValue_repr b, h]

theorem to_string_data (v : Int) :
    (to_string v).data =
      if v < 0 then '-' :: (Nat.repr v.natAbs).data else (Nat.repr v.toNat).data := by
  unfold to_string
  split <;> simp [String.data_append]

/-- Different integers have different decimal texts. -/
theorem to_string_injective (a b : Int) (h : to_string a = to_string b) : a = b := by
  have hd : (to_string a).data = (to_string b).data := by rw [h]
  rw [to_string_data, to_string_data] at hd
  have hminus : ∀ n : Nat, ∀ l : List Char, (Nat.repr n).data = '-' :: l → False := by
    intro n l hl
    have := repr_isDigit n '-' (by rw [hl]; exact List.mem_cons_self _ _)
    exact absurd this (by decide)
  by_cases ha : a < 0 <;> by_cases hb : b < 0
  · simp only [ha, hb, if_true, List.cons.injEq, true_and] at hd
    have := repr_injective _ _ (String.ext hd)
    omega
  · simp only [ha, hb, if_true, if_false] at hd
    exact (hminus _ _ hd.symm).elim
  · simp only [ha, hb, if_true, if_false] at hd
    exact (hminus _ _ hd).elim
  · simp only [ha, hb, if_false] at hd
    have := repr_injective _ _ (String.ext hd)
    omega

/-- No character of the decimal text of an `int` is a newline. -/
theorem to_string_no_newline (v : Int) : Char.ofNat 10 ∉ (to_string v).data := by
  intro hc
  rw [to_string_data] at hc
  split at hc
  · rcases List.mem_cons.mp hc with h | h
    · exact absurd h (by decide)
    · exact absurd (repr_isDigit _ _ h) (by decide)
  · exact absurd (repr_isDigit _ _ hc) (by decide)

/-! ### C1: the sequence generator -/

/-- C1, as amended: on a generator constructed with a seed `s` of type `int`, the
`i`-th call (0-indexed) of `getNext` returns the decimal text of `s + i` as long as
`s + i` does not exceed `INT_MAX`; up to there the values are consecutive (the next
one is the text of the successor) and no two calls return the same text. -/
theorem sequence_ith_value (s : Int) (i : Nat) (hlo : INT_MIN ≤ s) (hhi : s + i ≤ INT_MAX) :
    (ColumnDataGeneratorSequence.new s).ithValue i = to_string (s + i) ∧
    (∀ j : Nat, j < i →
      (ColumnDataGeneratorSequence.new s).ithValue j = to_string (s + j) ∧
      (ColumnDataGeneratorSequence.new s).ithValue j ≠
        (ColumnDataGeneratorSequence.new s).ithValue i) := by
  have key : ∀ k : Nat, k ≤ i →
      (ColumnDataGeneratorSequence.new s).ithValue k = to_string (s + k) := by
    intro k hk
    unfold ColumnDataGeneratorSequence.ithValue ColumnDataGeneratorSequence.new
    rw [afterCalls_seed k s hlo (by omega)]
    rfl
  refine ⟨key i (le_refl _), fun j hj => ⟨key j (by omega), ?_⟩⟩
  rw [key i (le_refl _), key j (by omega)]
  intro h
  have := to_string_injective _ _ h
  omega

/-- Witness of C1: seed 5, the call of index 3 returns `"8"`. -/
theorem sequence_ith_value_witness :
    INT_MIN ≤ 5 ∧ (5 : Int) + (3 : Nat) ≤ INT_MAX ∧
    (ColumnDataGeneratorSequence.new 5).ithValue 3 = "8" :=
  ⟨by decide, by decide, (sequence_ith_value 5 3 (by decide) (by decide)).1.trans (by decide)⟩

/-- C1 as stated fails at the top of the `int` range: with seed 2147483647 the call of
index 1 returns `"-2147483648"`, which is not the decimal text of 2147483647 + 1. -/
theorem sequence_ith_value_counterexample :
    (ColumnDataGeneratorSequence.new 2147483647).ithValue 1 = "-2147483648" ∧
    (ColumnDataGeneratorSequence.new 2147483647).ithValue 1 ≠ to_string (2147483647 + (1 : Nat)) := by
  decide

/-! ### C2, C3: header and row assembly -/

theorem getHeaderLoop_eq_go (d : String) (k : Nat) (hk : k ≠ 0) (cs : List ColumnDef)
    (acc : String) :
    TableDef.getHeaderLoop d k cs acc = String.intercalate.go acc d (cs.map ColumnDef.name) := by
  induction cs generalizing k acc with
  | nil => simp [TableDef.getHeaderLoop, String.intercalate.go]
  | cons c cs ih =>
    simp only [TableDef.getHeaderLoop, List.map_cons, String.intercalate.go, hk, ne_eq,
      not_false_eq_true, if_true]
    exact ih (k + 1) (by omega) _

theorem getHeader_eq_intercalate (t : TableDef) :
    t.getHeader = String.intercalate t.delimiter_ (t.columns_.map ColumnDef.name) := by
  unfold TableDef.getHeader
  cases h : t.columns_ with
  | nil => simp [TableDef.getHeaderLoop, String.intercalate]
  | cons c cs =>
    simp only [TableDef.getHeaderLoop, List.map_cons, String.intercalate, ne_eq,
      not_true_eq_false, if_false, String.empty_append]
    exact getHeaderLoop_eq_go _ 1 (by decide) cs _

theorem getNextRowLoop_eq_go (d : String) (k : Nat) (hk : k ≠ 0) (cs : List ColumnDef)
    (acc : String) (g : RandState) :
    TableDef.getNextRowLoop d k cs acc g =
      match produceAll cs g with
      | .error e => .error e
      | .ok (vs, cs1, g1) => .ok (String.intercalate.go acc d vs, cs1, g1) := by
  induction cs generalizing k acc g with
  | nil => simp [TableDef.getNextRowLoop, produceAll, String.intercalate.go]
  | cons c cs ih =>
    simp only [TableDef.getNextRowLoop, produceAll, hk, ne_eq, not_false_eq_true, if_true]
    cases hc : c.getNext g with
    | error e => rfl
    | ok r =>
      obtain ⟨v, c1, g1⟩ := r
      simp only []
      rw [ih (k + 1) (by omega) (acc ++ d ++ v) g1]
      cases hp : produceAll cs g1 with
      | error e => rfl
      | ok r2 =>
        obtain ⟨vs, cs1, g2⟩ := r2
        simp [String.intercalate.go]

theorem getNextRow_eq_intercalate (t : TableDef) (g : RandState) :
    t.getNextRow g =
      match produceAll t.columns_ g with
      | .error e => .error e
      | .ok (vs, cs, g1) =>
        .ok (String.intercalate t.delimiter_ vs, { t with columns_ := cs }, g1) := by
  unfold TableDef.getNextRow
  cases h : t.columns_ with
  | nil => simp [TableDef.getNextRowLoop, produceAll, String.intercalate]
  | cons c cs =>
    simp only [TableDef.getNextRowLoop, produceAll, ne_eq, not_true_eq_false, if_false,
      String.empty_append]
    cases hc : c.getNext g with
    | error e => rfl
    | ok r =>
      obtain ⟨v, c1, g1⟩ := r
      simp only []
      rw [getNextRowLoop_eq_go _ 1 (by decide) cs v g1]
      cases hp : produceAll cs g1 with
      | error e => rfl
      | ok r2 =>
        obtain ⟨vs, cs1, g2⟩ := r2
        simp [String.intercalate]

theorem produceAll_length (cs : List ColumnDef) (g : RandState) (vs : List String)
    (cs1 : List ColumnDef) (g1 : RandState) (h : produceAll cs g = .ok (vs, cs1, g1)) :
    vs.length = cs.length ∧ cs1.length = cs.length := by
  induction cs generalizing g vs cs1 g1 with
  | nil =>
    simp only [produceAll, Except.ok.injEq, Prod.mk.injEq] at h
    obtain ⟨h1, h2, -⟩ := h
    subst h1 h2
    simp
  | cons c cs ih =>
    simp only [produceAll] at h
    cases hc : c.getNext g with
    | error e => rw [hc] at h; simp at h
    | ok r =>
      obtain ⟨v, c1, g2⟩ := r
      rw [hc] at h
      simp only [] at h
      cases hp : produceAll cs g2 with
      | error e => rw [hp] at h; simp at h
      | ok r2 =>
        obtain ⟨vs2, cs2, g3⟩ := r2
        rw [hp] at h
        simp only [Except.ok.injEq, Prod.mk.injEq] at h
        obtain ⟨h1, h2, -⟩ := h
        subst h1 h2
        have := ih g2 vs2 cs2 g3 hp
        simp [this.1, this.2]
theorem go_eq_joinPrefixed (d acc : String) (l : List String) :
    String.intercalate.go acc d l = acc ++ joinPrefixed d l := by
  induction l generalizing acc with
  | nil => simp [String.intercalate.go, joinPrefixed]
  | cons x xs ih =>
    simp only [String.intercalate.go, joinPrefixed]
    rw [ih]
    simp [String.append_assoc]

theorem intercalate_eq_joinFields (d : String) (l : List String) :
    String.intercalate d l = joinFields d l := by
  cases l with
  | nil => rfl
  | cons x xs => simp [String.intercalate, joinFields, go_eq_joinPrefixed]

/-- C3: `getHeader` returns the column names in insertion order joined by the
delimiter: it equals `String.intercalate` of the delimiter and the names, which is the
first name as it is followed by every later name preceded by the delimiter (so nothing
for a table without columns, and no delimiter after the last name). -/
theorem header_joins_names (t : TableDef) :
    t.getHeader = String.intercalate t.delimiter_ (t.columns_.map ColumnDef.name) ∧
    t.getHeader = joinFields t.delimiter_ (t.columns_.map (fun c => c.name_)) := by
  have h := getHeader_eq_intercalate t
  refine ⟨h, ?_⟩
  rw [h, intercalate_eq_joinFields]
  rfl

/-- C2: `getNextRow` returns every column's `getNext` result, the columns taken in
insertion order (the order `getHeader` uses), joined by the delimiter: the first field
as it is, every later one preceded by the delimiter, nothing for a table without
columns. It fails exactly when one of the columns' calls fails, with that fault. -/
theorem nextRow_joins_values (t : TableDef) (g : RandState) :
    (t.getNextRow g =
      match produceAll t.columns_ g with
      | .error e => .error e
      | .ok (vs, cs, g1) =>
        .ok (String.intercalate t.delimiter_ vs, { t with columns_ := cs }, g1)) ∧
    (t.getNextRow g =
      match produceAll t.columns_ g with
      | .error e => .error e
      | .ok (vs, cs, g1) => .ok (joinFields t.delimiter_ vs, { t with columns_ := cs }, g1)) ∧
    (∀ vs cs g1, produceAll t.columns_ g = .ok (vs, cs, g1) →
      vs.length = t.columns_.length ∧ vs.length = (t.columns_.map ColumnDef.name).length) ∧
    t.getHeader = String.intercalate t.delimiter_ (t.columns_.map ColumnDef.name) := by
  refine ⟨getNextRow_eq_intercalate t g, ?_, ?_, getHeader_eq_intercalate t⟩
  · rw [getNextRow_eq_intercalate t g]
    cases produceAll t.columns_ g with
    | error e => rfl
    | ok r => simp [intercalate_eq_joinFields]
  · intro vs cs g1 h
    have := produceAll_length _ _ _ _ _ h
    simp [this.1]

/-! ### C4, C5: the random-text generator -/

theorem alphanum_length : alphanum.data.length = 63 := by decide

theorem sizeof_alphanum_pred : sizeof_alphanum - 1 = 63 := by decide

theorem alphanum_nodup : alphanum.data.Nodup := by decide

theorem alphanum_isAlphabetChar : ∀ c ∈ alphanum.data, isAlphabetChar c = true := by decide

theorem alphanumAt_mem (k : Nat) : alphanumAt (k % 63) ∈ alphanum.data := by
  unfold alphanumAt
  have hk : k % 63 < alphanum.data.length := by
    rw [alphanum_length]; exact Nat.mod_lt _ (by decide)
  rw [List.getD_eq_getElem _ _ hk]
  exact List.getElem_mem _

theorem randChars_length (n : Nat) (g : RandState) : (randChars n g).1.length = n := by
  induction n generalizing g with
  | zero => rfl
  | succ n ih => simp [randChars, ih]

theorem randChars_mem (n : Nat) (g : RandState) :
    ∀ c ∈ (randChars n g).1, c ∈ alphanum.data := by
  induction n generalizing g with
  | zero => intro c hc; simp [randChars] at hc
  | succ n ih =>
    intro c hc
    simp only [randChars, List.mem_cons] at hc
    rcases hc with h | h
    · rw [h]; exact alphanumAt_mem _
    · exact ih _ c h

theorem take_succ_set (res : List Char) (i : Nat) (c : Char) (hi : i < res.length) :
    (res.set i c).take (i + 1) = res.take i ++ [c] := by
  rw [List.set_eq_take_append_cons_drop, if_pos hi, List.take_append_eq_append_take]
  simp [List.length_take, Nat.min_eq_left (Nat.le_of_lt hi)]

/-- The loop of `getNext`, for a length that fits an `int`: started at position `i` with
`n` positions to go, it keeps the first `i` characters and writes the next `n` draws
behind them. -/
theorem fillLoop_randChars (len n : Nat) (hlen : len ≤ 2147483647) :
    ∀ (i fuel : Nat) (res : List Char) (g : RandState), i + n = len → res.length = len →
      n < fuel →
      ColumnDataGeneratorText.fillLoop len fuel (i : Int) res g =
        some (res.take i ++ (randChars n g).1, (randChars n g).2) := by
  induction n with
  | zero =>
    intro i fuel res g hi hres hfuel
    obtain ⟨f, rfl⟩ : ∃ f, fuel = f + 1 := ⟨fuel - 1, by omega⟩
    have hcond : ¬ toSizeT (i : Int) < len := by unfold toSizeT; omega
    simp only [ColumnDataGeneratorText.fillLoop, hcond, if_false, randChars, List.append_nil]
    rw [List.take_of_length_le (by omega)]
  | succ n ih =>
    intro i fuel res g hi hres hfuel
    obtain ⟨f, rfl⟩ : ∃ f, fuel = f + 1 := ⟨fuel - 1, by omega⟩
    have hsz : toSizeT (i : Int) = i := by unfold toSizeT; omega
    have hcond : i < len := by omega
    have hwrap : wrapInt ((i : Int) + 1) = ((i + 1 : Nat) : Int) := by
      unfold wrapInt; push_cast; omega
    simp only [ColumnDataGeneratorText.fillLoop, hsz, hcond, if_true, hwrap,
      sizeof_alphanum_pred]
    rw [ih (i + 1) f _ _ (by omega) (by rw [List.length_set]; exact hres) (by omega)]
    rw [take_succ_set _ _ _ (by omega)]
    simp [randChars]

theorem getNext_of_len (t : ColumnDataGeneratorText) (g g1 : RandState) (len : Nat)
    (hlen : len ≤ 2147483647)
    (hc : ColumnDataGeneratorText.chooseLen t g = .ok (len, g1)) :
    t.getNext g = .ok (String.mk (randChars len g1).1, (randChars len g1).2) := by
  unfold ColumnDataGeneratorText.getNext
  rw [hc]
  have hmax : ¬ string_max_size < len := by unfold string_max_size; omega
  simp only [hmax, if_false]
  have := fillLoop_randChars len len hlen 0 (len + 1) (List.replicate len (Char.ofNat 0)) g1
    (by omega) (by simp) (by omega)
  simp only [Nat.cast_zero, List.take_zero, List.nil_append] at this
  rw [this]

theorem chooseLen_fixed (t : ColumnDataGeneratorText) (g : RandState)
    (hmode : t.length_ ≠ "variable") :
    ColumnDataGeneratorText.chooseLen t g = .ok (t.lengthLimit_, g) := by
  unfold ColumnDataGeneratorText.chooseLen string_compare
  simp only [hmode, if_false]
  split <;> simp

theorem chooseLen_variable (t : ColumnDataGeneratorText) (g : RandState)
    (hmode : t.length_ = "variable") (hpos : 0 < t.lengthLimit_) :
    ColumnDataGeneratorText.chooseLen t g = .ok ((rand g).1 % t.lengthLimit_, (rand g).2) := by
  unfold ColumnDataGeneratorText.chooseLen string_compare
  have : t.lengthLimit_ ≠ 0 := by omega
  simp [hmode, this]

theorem rand_le (g : RandState) : (rand g).1 ≤ 2147483647 := by
  unfold rand RAND_MAX
  simp only
  omega

theorem getNext_fixed (t : ColumnDataGeneratorText) (g : RandState)
    (hmode : t.length_ ≠ "variable") (hlim : t.lengthLimit_ ≤ 2147483647) :
    t.getNext g =
      .ok (String.mk (randChars t.lengthLimit_ g).1, (randChars t.lengthLimit_ g).2) :=
  getNext_of_len t g g _ hlim (chooseLen_fixed t g hmode)

theorem getNext_variable (t : ColumnDataGeneratorText) (g : RandState)
    (hmode : t.length_ = "variable") (hpos : 0 < t.lengthLimit_) :
    t.getNext g =
      .ok (String.mk (randChars ((rand g).1 % t.lengthLimit_) (rand g).2).1,
        (randChars ((rand g).1 % t.lengthLimit_) (rand g).2).2) :=
  getNext_of_len t g _ _
    (le_trans (Nat.mod_le _ _) (rand_le g)) (chooseLen_variable t g hmode hpos)

/-- C4, as amended: in fixed mode (any mode text other than `"variable"`) with a length
limit `L` that fits an `int` (`0 ≤ L ≤ 2147483647`), for every state of the random
source `getNext` returns a string of length exactly `L`, namely the next `L` draws
`alphanum[rand() % 63]`, every character of which is in the 63-symbol alphabet (space,
digit, upper-case or lower-case letter); for `L = 0` it returns the empty string. -/
theorem text_fixed_length (t : ColumnDataGeneratorText) (g : RandState)
    (hmode : t.length_ ≠ "variable") (hlim : t.lengthLimit_ ≤ 2147483647) :
    ∃ s g1, t.getNext g = .ok (s, g1) ∧
      s.length = t.lengthLimit_ ∧
      (∀ c ∈ s.data, c ∈ alphanum.data ∧ isAlphabetChar c = true) ∧
      (t.lengthLimit_ = 0 → s = "" ∧ g1 = g) ∧
      s.data = (randChars t.lengthLimit_ g).1 ∧ g1 = (randChars t.lengthLimit_ g).2 := by
  refine ⟨_, _, getNext_fixed t g hmode hlim, ?_, ?_, ?_, rfl, rfl⟩
  · simp [String.length, randChars_length]
  · intro c hc
    have := randChars_mem _ _ c hc
    exact ⟨this, alphanum_isAlphabetChar c this⟩
  · intro h0
    rw [h0]
    exact ⟨rfl, rfl⟩

/-- Witness of C4: mode `"fixed"`, limit 5, the source delivering 0, 1, 2, ...:
the value is `" 0123"`. -/
theorem text_fixed_length_witness :
    ("fixed" ≠ "variable") ∧ (5 ≤ 2147483647) ∧
    ∃ s g1, ColumnDataGeneratorText.getNext { length_ := "fixed", lengthLimit_ := 5 } rngCount
        = .ok (s, g1) ∧ s.length = 5 ∧ s.data = " 0123".data := by
  refine ⟨by decide, by decide, ?_⟩
  obtain ⟨s, g1, h1, h2, -, -, h3, -⟩ :=
    text_fixed_length { length_ := "fixed", lengthLimit_ := 5 } rngCount (by decide) (by decide)
  exact ⟨s, g1, h1, h2, h3.trans (by decide)⟩

/-- C4 as stated fails for a limit no string can have: in fixed mode with the limit
18446744073709551615 (what a configured `length-limit` of -1 becomes as a `size_t`),
`getNext` returns no string but throws `std::length_error`. -/
theorem text_fixed_length_counterexample :
    ColumnDataGeneratorText.getNext
      { length_ := "fixed", lengthLimit_ := 18446744073709551615 } rngCount
      = .error .length_error ∧
    toSizeT (-1) = 18446744073709551615 := by
  exact ⟨rfl, by decide⟩

/-- C5: in `"variable"` mode with a positive length limit `L`, for every state of the
random source `getNext` returns a string whose length is `rand() % L`, hence at least 0
and strictly less than `L`, and every character of it is in the 63-symbol alphabet. -/
theorem text_variable_length (t : ColumnDataGeneratorText) (g : RandState)
    (hmode : t.length_ = "variable") (hpos : 0 < t.lengthLimit_) :
    ∃ s g1, t.getNext g = .ok (s, g1) ∧
      0 ≤ s.length ∧ s.length < t.lengthLimit_ ∧
      s.length = (rand g).1 % t.lengthLimit_ ∧
      (∀ c ∈ s.data, c ∈ alphanum.data ∧ isAlphabetChar c = true) := by
  refine ⟨_, _, getNext_variable t g hmode hpos, Nat.zero_le _, ?_, ?_, ?_⟩
  · simp only [String.length, randChars_length]
    exact Nat.mod_lt _ hpos
  · simp [String.length, randChars_length]
  · intro c hc
    have := randChars_mem _ _ c hc
    exact ⟨this, alphanum_isAlphabetChar c this⟩

/-- Witness of C5: mode `"variable"`, limit 5, the source delivering 13, 14, ...:
the length is 13 % 5 = 3. -/
theorem text_variable_length_witness :
    ("variable" = "variable") ∧ (0 < 5) ∧
    ∃ s g1, ColumnDataGeneratorText.getNext { length_ := "variable", lengthLimit_ := 5 }
        { stream := fun n => n + 13 } = .ok (s, g1) ∧ s.length = 3 := by
  refine ⟨rfl, by decide, ?_⟩
  obtain ⟨s, g1, h1, -, -, h2, -⟩ :=
    text_variable_length { length_ := "variable", lengthLimit_ := 5 }
      { stream := fun n => n + 13 } rfl (by decide)
  exact ⟨s, g1, h1, h2.trans (by decide)⟩

/-! ### The configuration tree and the driver's parsing -/

theorem get_child_of_walk (p : List String) (t c : PTree) (h : t.walk p = some c) :
    t.get_child p = .ok c := by
  simp [PTree.get_child, h]

theorem get_child_of_walk_none (p : List String) (t : PTree) (h : t.walk p = none) :
    t.get_child p = .error (.ptree_bad_path p) := by
  simp [PTree.get_child, h]

theorem walk_of_get_child (p : List String) (t c : PTree) (h : t.get_child p = .ok c) :
    t.walk p = some c := by
  unfold PTree.get_child at h
  cases hw : t.walk p with
  | none => rw [hw] at h; cases h
  | some x => rw [hw] at h; dsimp only at h; injection h with h; rw [h]

theorem get_child_error (p : List String) (t : PTree) (e : Fault)
    (h : t.get_child p = .error e) : e = .ptree_bad_path p := by
  unfold PTree.get_child at h
  cases hw : t.walk p with
  | none => rw [hw] at h; dsimp only at h; injection h with h; exact h.symm
  | some x => rw [hw] at h; cases h

theorem string_compare_eq_zero (a b : String) : string_compare a b = 0 ↔ a = b := by
  unfold string_compare
  constructor
  · intro h
    by_contra hne
    simp only [hne, if_false] at h
    split at h <;> simp at h
  · intro h
    simp [h]

theorem stoi_range (s : String) (v : Int) (h : stoi s = .ok v) : INT_MIN ≤ v ∧ v ≤ INT_MAX := by
  unfold stoi at h
  simp only at h
  split_ifs at h with h1 h2 h3 h4
  all_goals cases h
  all_goals (unfold INT_MIN INT_MAX at *; omega)

theorem stoi_error (s : String) (e : Fault) (h : stoi s = .error e) : e.isException = true := by
  unfold stoi at h
  simp only at h
  split_ifs at h with h1 h2 h3 h4
  all_goals cases h
  all_goals rfl

theorem get_child_error_isException (p : List String) (t : PTree) (e : Fault)
    (h : t.get_child p = .error e) : e.isException = true := by
  rw [get_child_error p t e h]; rfl

theorem buildColumn_error_isException (c : PTree) (w : World) (e : Fault)
    (h : buildColumn c w = .error e) : e.isException = true := by
  unfold buildColumn at h
  repeat' split at h
  all_goals cases h
  all_goals first
    | exact stoi_error _ _ (by assumption)
    | exact get_child_error_isException _ _ _ (by assumption)

theorem buildColumn_no_data (c : PTree) (w : World) (h : c.find "data" = none) :
    ∃ p, buildColumn c w = .error (.ptree_bad_path p) := by
  have hw : c.walk ["data", "generator"] = none := by simp [PTree.walk, h]
  unfold buildColumn
  cases hn : c.get_child ["name"] with
  | error e => exact ⟨_, by rw [get_child_error _ _ _ hn]⟩
  | ok n =>
    cases ht : c.get_child ["type"] with
    | error e => exact ⟨_, by rw [get_child_error _ _ _ ht]⟩
    | ok ty =>
      refine ⟨["data", "generator"], ?_⟩
      rw [get_child_of_walk_none _ _ hw]

theorem toSizeT_of_nonneg (v : Int) (h0 : 0 ≤ v) (h1 : v ≤ INT_MAX) :
    toSizeT v = v.toNat ∧ toSizeT v ≤ 2147483647 := by
  unfold toSizeT
  unfold INT_MAX at h1
  omega

/-- A valid column entry builds: the column carries the configured name, and a
random-text generator gets a positive limit that fits an `int`. -/
theorem buildColumn_valid (c : PTree) (w : World) (h : validColumn c = true) :
    ∃ col w1, buildColumn c w = .ok (col, w1) ∧ col.wellFormed ∧
      (c.walk ["name"]).map PTree.data = some col.name_ := by
  unfold validColumn at h
  cases hn : c.walk ["name"] with
  | none => simp [hn] at h
  | some n =>
    cases ht : c.walk ["type"] with
    | none => simp [hn, ht] at h
    | some ty =>
      cases hg : c.walk ["data", "generator"] with
      | none => simp [hn, ht, hg] at h
      | some gen =>
        simp only [hn, ht, hg, Option.isSome_some, Bool.and_self, Bool.true_and] at h
        unfold buildColumn
        rw [get_child_of_walk _ _ _ hn, get_child_of_walk _ _ _ ht, get_child_of_walk _ _ _ hg]
        simp only []
        by_cases h1 : gen.data = "random-text"
        · have hz : string_compare gen.data "random-text" = 0 :=
            (string_compare_eq_zero _ _).2 h1
          simp only [hz, if_true]
          simp only [h1, if_true] at h
          cases hl : c.walk ["data", "length"] with
          | none => simp [hl] at h
          | some len =>
            cases hm : c.walk ["data", "length-limit"] with
            | none => simp [hl, hm] at h
            | some lim =>
              simp only [hl, hm, Option.isSome_some, Bool.true_and] at h
              rw [get_child_of_walk _ _ _ hl, get_child_of_walk _ _ _ hm]
              simp only []
              cases hs : stoi lim.data with
              | error e => simp [hs] at h
              | ok v =>
                simp only [hs, decide_eq_true_eq] at h
                have hr := stoi_range _ _ hs
                have hsz := toSizeT_of_nonneg v (le_of_lt h) hr.2
                refine ⟨_, _, rfl, ?_, rfl⟩
                simp only [ColumnDef.wellFormed, ColumnDef.addDataGenerator,
                  ColumnDataGeneratorText.new]
                refine ⟨hsz.2, fun _ => ?_⟩
                rw [hsz.1]
                omega
        · have hz : string_compare gen.data "random-text" ≠ 0 :=
            fun hh => h1 ((string_compare_eq_zero _ _).1 hh)
          simp only [hz, if_false]
          simp only [h1, if_false] at h
          by_cases h2 : gen.data = "sequence"
          · have hz2 : string_compare gen.data "sequence" = 0 :=
              (string_compare_eq_zero _ _).2 h2
            simp only [hz2, if_true]
            simp only [h2, if_true] at h
            cases hsd : c.walk ["data", "seed"] with
            | none => simp [hsd] at h
            | some sd =>
              rw [get_child_of_walk _ _ _ hsd]
              simp only []
              simp only [hsd] at h
              cases hs : stoi sd.data with
              | error e => simp [hs] at h
              | ok v =>
                refine ⟨_, _, rfl, ?_, rfl⟩
                simp [ColumnDef.wellFormed, ColumnDef.addDataGenerator]
          · have hz2 : string_compare gen.data "sequence" ≠ 0 :=
              fun hh => h2 ((string_compare_eq_zero _ _).1 hh)
            simp only [hz2, if_false]
            refine ⟨_, _, rfl, ?_, rfl⟩
            simp [ColumnDef.wellFormed, ColumnDef.new]

theorem buildColumns_valid (l : List (String × PTree)) :
    ∀ (tp : TableDef) (w : World), l.all (fun kv => validColumn kv.2) = true →
      (∀ c ∈ tp.columns_, c.wellFormed) →
      ∃ tp1 w1, buildColumns l tp w = .ok (tp1, w1) ∧ tp1.delimiter_ = tp.delimiter_ ∧
        (∀ c ∈ tp1.columns_, c.wellFormed) ∧
        tp1.columns_.map ColumnDef.name_ =
          tp.columns_.map ColumnDef.name_ ++
            l.filterMap (fun kv => (kv.2.walk ["name"]).map PTree.data) ∧
        tp1.columns_.length = tp.columns_.length + l.length := by
  induction l with
  | nil =>
    intro tp w _ htp
    exact ⟨tp, w, rfl, rfl, htp, by simp, by simp⟩
  | cons kv rest ih =>
    intro tp w hall htp
    simp only [List.all_cons, Bool.and_eq_true] at hall
    obtain ⟨col, w1, hb, hwf, hname⟩ := buildColumn_valid kv.2 w hall.1
    have htp1 : ∀ c ∈ (tp.addColumn col).columns_, c.wellFormed := by
      intro c hc
      simp only [TableDef.addColumn, List.mem_append, List.mem_singleton] at hc
      rcases hc with hc | hc
      · exact htp c hc
      · rw [hc]; exact hwf
    obtain ⟨tp1, w2, h1, h2, h3, h4, h5⟩ := ih (tp.addColumn col) w1 hall.2 htp1
    refine ⟨tp1, w2, ?_, ?_, h3, ?_, ?_⟩
    · simp only [buildColumns, hb]
      exact h1
    · rw [h2]; rfl
    · rw [h4]
      simp [TableDef.addColumn, List.filterMap_cons, hname]
    · rw [h5]
      simp [TableDef.addColumn]
      omega

theorem buildColumns_no_data (l : List (String × PTree)) :
    ∀ (tp : TableDef) (w : World), (∃ kv ∈ l, kv.2.find "data" = none) →
      ∃ e, buildColumns l tp w = .error e ∧ e.isException = true := by
  induction l with
  | nil => intro tp w h; obtain ⟨kv, hkv, -⟩ := h; simp at hkv
  | cons kv rest ih =>
    intro tp w h
    cases hb : buildColumn kv.2 w with
    | error e =>
      exact ⟨e, by simp only [buildColumns, hb], buildColumn_error_isException _ _ _ hb⟩
    | ok r =>
      obtain ⟨col, w1⟩ := r
      obtain ⟨bad, hmem, hbad⟩ := h
      rcases List.mem_cons.mp hmem with heq | hin
      · obtain ⟨p, hp⟩ := buildColumn_no_data bad.2 w hbad
        rw [heq] at hp
        rw [hp] at hb
        cases hb
      · obtain ⟨e, he, hex⟩ := ih (tp.addColumn col) w1 ⟨bad, hin, hbad⟩
        exact ⟨e, by simp only [buildColumns, hb]; exact he, hex⟩

/-! ### Well-formed columns always produce -/

theorem alphanum_no_newline : Char.ofNat 10 ∉ alphanum.data := by decide

theorem ColumnDef.getNext_wellFormed (c : ColumnDef) (g : RandState) (h : c.wellFormed) :
    ∃ v c1 g1, c.getNext g = .ok (v, c1, g1) ∧ c1.wellFormed ∧ c1.name_ = c.name_ ∧
      c1.type_ = c.type_ ∧ Char.ofNat 10 ∉ v.data := by
  obtain ⟨n, ty, d⟩ := c
  cases d with
  | none => exact ⟨"", _, g, rfl, h, rfl, rfl, by simp⟩
  | some gen =>
    cases gen with
    | sequence s =>
      exact ⟨_, _, g, rfl, by simp [ColumnDef.wellFormed], rfl, rfl, to_string_no_newline _⟩
    | text t =>
      simp only [ColumnDef.wellFormed] at h
      have hres : ∃ len g0, t.getNext g =
          .ok (String.mk (randChars len g0).1, (randChars len g0).2) := by
        by_cases hm : t.length_ = "variable"
        · exact ⟨_, _, getNext_variable t g hm (h.2 hm)⟩
        · exact ⟨_, _, getNext_fixed t g hm h.1⟩
      obtain ⟨len, g0, hg⟩ := hres
      refine ⟨String.mk (randChars len g0).1,
        { name_ := n, type_ := ty, dataGenerator_ := some (.text t) }, (randChars len g0).2,
        ?_, ?_, rfl, rfl, ?_⟩
      · simp only [ColumnDef.getNext, ColumnDataGenerator.getNext, hg]
      · simpa [ColumnDef.wellFormed] using h
      · intro hc
        exact alphanum_no_newline (randChars_mem _ _ _ hc)

theorem produceAll_wellFormed (cs : List ColumnDef) :
    ∀ (g : RandState), (∀ c ∈ cs, c.wellFormed) →
      ∃ vs cs1 g1, produceAll cs g = .ok (vs, cs1, g1) ∧ (∀ c ∈ cs1, c.wellFormed) ∧
        cs1.map ColumnDef.name_ = cs.map ColumnDef.name_ ∧
        (∀ v ∈ vs, Char.ofNat 10 ∉ v.data) ∧ vs.length = cs.length := by
  induction cs with
  | nil => intro g _; exact ⟨[], [], g, rfl, by simp, rfl, by simp, rfl⟩
  | cons c cs ih =>
    intro g h
    obtain ⟨v, c1, g1, hc, hwf, hn, -, hv⟩ :=
      ColumnDef.getNext_wellFormed c g (h c (List.mem_cons_self _ _))
    obtain ⟨vs, cs1, g2, hp, hwfs, hns, hvs, hlen⟩ :=
      ih g1 (fun x hx => h x (List.mem_cons_of_mem _ hx))
    refine ⟨v :: vs, c1 :: cs1, g2, ?_, ?_, ?_, ?_, ?_⟩
    · simp only [produceAll, hc, hp]
    · intro x hx
      rcases List.mem_cons.mp hx with hx | hx
      · rw [hx]; exact hwf
      · exact hwfs x hx
    · simp [hn, hns]
    · intro x hx
      rcases List.mem_cons.mp hx with hx | hx
      · rw [hx]; exact hv
      · exact hvs x hx
    · simp [hlen]

/-! ### Rows and lines -/

theorem joinPrefixed_no_newline (d : String) (vs : List String)
    (hd : Char.ofNat 10 ∉ d.data) (hv : ∀ v ∈ vs, Char.ofNat 10 ∉ v.data) :
    Char.ofNat 10 ∉ (joinPrefixed d vs).data := by
  induction vs with
  | nil => simp [joinPrefixed]
  | cons x xs ih =>
    simp only [joinPrefixed, String.data_append, List.mem_append, not_or]
    exact ⟨⟨hd, hv x (List.mem_cons_self _ _)⟩, ih (fun v h => hv v (List.mem_cons_of_mem _ h))⟩

theorem joinFields_no_newline (d : String) (vs : List String)
    (hd : Char.ofNat 10 ∉ d.data) (hv : ∀ v ∈ vs, Char.ofNat 10 ∉ v.data) :
    Char.ofNat 10 ∉ (joinFields d vs).data := by
  cases vs with
  | nil => simp [joinFields]
  | cons x xs =>
    simp only [joinFields, String.data_append, List.mem_append, not_or]
    exact ⟨hv x (List.mem_cons_self _ _),
      joinPrefixed_no_newline d xs hd (fun v h => hv v (List.mem_cons_of_mem _ h))⟩

theorem getNextRow_eq_joinFields (t : TableDef) (g : RandState) (vs : List String)
    (cs : List ColumnDef) (g1 : RandState) (h : produceAll t.columns_ g = .ok (vs, cs, g1)) :
    t.getNextRow g = .ok (joinFields t.delimiter_ vs, { t with columns_ := cs }, g1) := by
  rw [getNextRow_eq_intercalate, h]
  simp [intercalate_eq_joinFields]

theorem getNextRow_wellFormed (t : TableDef) (g : RandState)
    (h : ∀ c ∈ t.columns_, c.wellFormed) :
    ∃ vs t1 g1, t.getNextRow g = .ok (joinFields t.delimiter_ vs, t1, g1) ∧
      vs.length = t.columns_.length ∧ (∀ v ∈ vs, Char.ofNat 10 ∉ v.data) ∧
      t1.delimiter_ = t.delimiter_ ∧ (∀ c ∈ t1.columns_, c.wellFormed) ∧
      t1.columns_.map ColumnDef.name_ = t.columns_.map ColumnDef.name_ := by
  obtain ⟨vs, cs1, g1, hp, hwf, hn, hv, hlen⟩ := produceAll_wellFormed t.columns_ g h
  exact ⟨vs, { t with columns_ := cs1 }, g1, getNextRow_eq_joinFields t g vs cs1 g1 hp, hlen, hv,
    rfl, hwf, hn⟩

theorem nextRows_wellFormed (n : Nat) :
    ∀ (t : TableDef) (g : RandState), (∀ c ∈ t.columns_, c.wellFormed) →
      ∃ rows t2 g2, nextRows n t g = .ok (rows, t2, g2) ∧ rows.length = n ∧
        (∀ row ∈ rows, ∃ vs : List String, vs.length = t.columns_.length ∧
          (∀ v ∈ vs, Char.ofNat 10 ∉ v.data) ∧ row = joinFields t.delimiter_ vs) := by
  induction n with
  | zero => intro t g _; exact ⟨[], t, g, rfl, rfl, by simp⟩
  | succ n ih =>
    intro t g h
    obtain ⟨vs, t1, g1, hrow, hlen, hv, hd, hwf, hn⟩ := getNextRow_wellFormed t g h
    obtain ⟨rows, t2, g2, hrows, hl, hall⟩ := ih t1 g1 hwf
    refine ⟨joinFields t.delimiter_ vs :: rows, t2, g2, ?_, by simp [hl], ?_⟩
    · simp only [nextRows, hrow, hrows]
    · intro row hr
      rcases List.mem_cons.mp hr with hr | hr
      · exact ⟨vs, hlen, hv, hr⟩
      · obtain ⟨vs2, h1, h2, h3⟩ := hall row hr
        refine ⟨vs2, ?_, h2, ?_⟩
        · have : t1.columns_.length = t.columns_.length := by
            have := congrArg List.length hn
            simpa using this
          omega
        · rw [h3, hd]

/-- The row loop of `main`, when the `n` rows still to write can all be produced: it
writes them, each followed by a newline, and ends normally. -/
theorem rowLoop_of_nextRows (countRows : Int) (hmax : countRows ≤ INT_MAX) (n : Nat) :
    ∀ (i fuel : Nat) (tp : TableDef) (g : RandState) (out : String) (rows : List String)
      (t2 : TableDef) (g2 : RandState), (i : Int) + n = countRows → n < fuel →
      nextRows n tp g = .ok (rows, t2, g2) →
      rowLoop countRows fuel i tp g out = { stdout := out ++ writeLines rows, status := .ok () } := by
  induction n with
  | zero =>
    intro i fuel tp g out rows t2 g2 hi hfuel hrows
    obtain ⟨f, rfl⟩ : ∃ f, fuel = f + 1 := ⟨fuel - 1, by omega⟩
    have hcond : ¬ (i : Int) < countRows := by omega
    simp only [nextRows, Except.ok.injEq, Prod.mk.injEq] at hrows
    obtain ⟨h1, -, -⟩ := hrows
    subst h1
    simp only [rowLoop, hcond, if_false, writeLines, String.append_empty]
  | succ n ih =>
    intro i fuel tp g out rows t2 g2 hi hfuel hrows
    obtain ⟨f, rfl⟩ : ∃ f, fuel = f + 1 := ⟨fuel - 1, by omega⟩
    have hcond : (i : Int) < countRows := by push_cast at hi; omega
    have hwrap : wrapInt ((i : Int) + 1) = ((i + 1 : Nat) : Int) := by
      unfold wrapInt
      unfold INT_MAX at hmax
      push_cast at hi ⊢
      omega
    simp only [nextRows] at hrows
    cases hrow : tp.getNextRow g with
    | error e => rw [hrow] at hrows; cases hrows
    | ok x =>
      obtain ⟨row, t1, g1⟩ := x
      rw [hrow] at hrows
      simp only [] at hrows
      cases hrest : nextRows n t1 g1 with
      | error e => rw [hrest] at hrows; cases hrows
      | ok y =>
        obtain ⟨rows1, t3, g3⟩ := y
        rw [hrest] at hrows
        simp only [Except.ok.injEq, Prod.mk.injEq] at hrows
        obtain ⟨h1, -, -⟩ := hrows
        subst h1
        simp only [rowLoop, hcond, if_true, hrow, hwrap]
        rw [ih (i + 1) f t1 g1 _ rows1 t3 g3 (by push_cast at hi ⊢; omega) (by omega) hrest]
        simp [writeLines, String.append_assoc]

theorem lineCount_append (a b : String) : lineCount (a ++ b) = lineCount a + lineCount b := by
  simp [lineCount, String.data_append, List.count_append]

theorem lineCount_of_no_newline (s : String) (h : Char.ofNat 10 ∉ s.data) : lineCount s = 0 := by
  unfold lineCount
  exact List.count_eq_zero_of_not_mem h

theorem lineCount_newline : lineCount "\n" = 1 := by decide

theorem lineCount_writeLines (rows : List String)
    (h : ∀ row ∈ rows, Char.ofNat 10 ∉ row.data) : lineCount (writeLines rows) = rows.length := by
  induction rows with
  | nil => rfl
  | cons x xs ih =>
    simp only [writeLines, lineCount_append, lineCount_newline, List.length_cons]
    rw [lineCount_of_no_newline x (h x (List.mem_cons_self _ _)),
      ih (fun r hr => h r (List.mem_cons_of_mem _ hr))]
    omega

/-! ### C6, C7: what the driver writes -/

/-- C6, as amended: for every valid configuration with `rows = R > 0` the driver builds
the table, produces `R` rows and ends normally, and standard output holds the header
(the configured column names joined by the delimiter) followed by the `R` rows, each of
the `R + 1` texts followed by a newline; if neither the delimiter nor a column name
contains a newline character, standard output has exactly `R + 1` lines. -/
theorem main_lines (pt : PTree) (w : World) (r : PTree) (R : Int)
    (hvalid : validConfig pt = true) (hr : pt.walk ["rows"] = some r)
    (hR : stoi r.data = .ok R) (hpos : 0 < R) :
    ∃ d cols tp w1 rows tp2 g2,
      pt.walk ["delimiter"] = some d ∧ pt.walk ["columns"] = some cols ∧
      buildColumns cols.children (TableDef.new.delimiterIs d.data) w = .ok (tp, w1) ∧
      tp.delimiter_ = d.data ∧ tp.columns_.map ColumnDef.name_ = configNames cols ∧
      nextRows R.toNat tp w1.rng = .ok (rows, tp2, g2) ∧ rows.length = R.toNat ∧
      (main pt w).status = .ok () ∧
      (main pt w).stdout = writeLines (tp.getHeader :: rows) ∧
      tp.getHeader = joinFields d.data (configNames cols) ∧
      ((Char.ofNat 10 ∉ d.data.data ∧ ∀ n ∈ configNames cols, Char.ofNat 10 ∉ n.data) →
        (lineCount (main pt w).stdout : Int) = R + 1) := by
  unfold validConfig at hvalid
  simp only [Bool.and_eq_true] at hvalid
  obtain ⟨⟨-, hdel⟩, hcols⟩ := hvalid
  cases hd : pt.walk ["delimiter"] with
  | none => simp [hd] at hdel
  | some d =>
    cases hc : pt.walk ["columns"] with
    | none => simp [hc] at hcols
    | some cols =>
      simp only [hc] at hcols
      obtain ⟨tp, w1, hb, hdl, hwf, hnames, -⟩ :=
        buildColumns_valid cols.children (TableDef.new.delimiterIs d.data) w hcols
          (by intro c hc; simp [TableDef.new, TableDef.delimiterIs] at hc)
      have hdl2 : tp.delimiter_ = d.data := by rw [hdl]; rfl
      have hnames2 : tp.columns_.map ColumnDef.name_ = configNames cols := by
        rw [hnames]; simp [TableDef.new, TableDef.delimiterIs, configNames]
      obtain ⟨rows, tp2, g2, hrows, hlen, hall⟩ := nextRows_wellFormed R.toNat tp w1.rng hwf
      have hRmax := (stoi_range _ _ hR).2
      have hloop := rowLoop_of_nextRows R hRmax R.toNat 0 (R.toNat + 1) tp w1.rng
        ("" ++ tp.getHeader ++ "\n") rows tp2 g2 (by push_cast; omega) (by omega) hrows
      have hmain : main pt w =
          { stdout := "" ++ tp.getHeader ++ "\n" ++ writeLines rows, status := .ok () } := by
        unfold main
        rw [get_child_of_walk _ _ _ hr]
        simp only [hR, gt_iff_lt, hpos, if_true]
        rw [get_child_of_walk _ _ _ hd]
        simp only []
        rw [get_child_of_walk _ _ _ hc]
        simp only [hb]
        exact hloop
      have hhead : tp.getHeader = joinFields d.data (configNames cols) := by
        rw [getHeader_eq_intercalate, intercalate_eq_joinFields, hdl2, ← hnames2]; rfl
      refine ⟨d, cols, tp, w1, rows, tp2, g2, rfl, rfl, hb, hdl2, hnames2, hrows, hlen, ?_, ?_,
        hhead, ?_⟩
      · rw [hmain]
      · rw [hmain]; simp [writeLines]
      · rintro ⟨hnd, hnn⟩
        rw [hmain]
        have hh : Char.ofNat 10 ∉ tp.getHeader.data := by
          rw [hhead]
          exact joinFields_no_newline _ _ hnd hnn
        have hrs : ∀ row ∈ rows, Char.ofNat 10 ∉ row.data := by
          intro row hrow
          obtain ⟨vs, -, hv, hrw⟩ := hall row hrow
          rw [hrw, hdl2]
          exact joinFields_no_newline _ _ hnd hv
        simp only [String.empty_append, lineCount_append, lineCount_newline,
          lineCount_of_no_newline _ hh, lineCount_writeLines rows hrs, hlen]
        push_cast
        omega

/-- Witness of C6: the specification's first scenario (`rows` 2, delimiter `|`, one
sequence column `id` from seed 5) is a valid configuration, and the driver writes the
three lines `id`, `5`, `6`. -/
theorem main_lines_witness :
    validConfig cfgIds = true ∧ stoi "2" = .ok 2 ∧
    (main cfgIds world0).stdout = "id\n5\n6\n" ∧
    (lineCount (main cfgIds world0).stdout : Int) = 2 + 1 := by
  obtain ⟨d, cols, tp, w1, rows, tp2, g2, hd, hc, -, -, -, -, -, -, -, -, hcount⟩ :=
    main_lines cfgIds world0 (leaf "2") 2 (by decide) rfl rfl (by decide)
  refine ⟨by decide, rfl, by decide, hcount ?_⟩
  have hd2 : d = leaf "|" := by
    have : cfgIds.walk ["delimiter"] = some (leaf "|") := rfl
    rw [this] at hd
    exact (Option.some.inj hd).symm
  have hc2 : cols = arr [seqEntry "id" "5"] := by
    have : cfgIds.walk ["columns"] = some (arr [seqEntry "id" "5"]) := rfl
    rw [this] at hc
    exact (Option.some.inj hc).symm
  subst hd2 hc2
  decide

/-- C6 as stated fails when a newline is configured inside a line: the valid
configuration with `rows` 1, two sequence columns `a` and `b` and a newline as delimiter
makes the driver write `a`, `b`, `1`, `1` on four lines, not on 1 + 1. -/
theorem main_lines_counterexample :
    validConfig cfgNewline = true ∧
    cfgNewline.walk ["rows"] = some (leaf "1") ∧ stoi "1" = .ok 1 ∧
    (main cfgNewline world0).status = .ok () ∧
    (main cfgNewline world0).stdout = "a\nb\n1\n1\n" ∧
    lineCount (main cfgNewline world0).stdout = 4 ∧
    lineCount (main cfgNewline world0).stdout ≠ 1 + 1 :=
  ⟨by decide, rfl, rfl, rfl, by decide, by decide, by decide⟩

/-- C7: when the `rows` value reads as an integer that is zero or negative, the driver
writes nothing to standard output, whatever the rest of the configuration, and ends
normally; more generally nothing is written unless `rows` reads as a positive `int`. -/
theorem main_writes_nothing (pt : PTree) (w : World)
    (h : ∀ r v, pt.get_child ["rows"] = .ok r → stoi r.data = .ok v → v ≤ 0) :
    (main pt w).stdout = "" ∧
    (∀ r v, pt.get_child ["rows"] = .ok r → stoi r.data = .ok v →
      (main pt w).status = .ok ()) := by
  unfold main
  cases hr : pt.get_child ["rows"] with
  | error e => exact ⟨rfl, fun r v h1 _ => by cases h1⟩
  | ok r =>
    simp only []
    cases hv : stoi r.data with
    | error e =>
      refine ⟨rfl, fun r2 v h1 h2 => ?_⟩
      injection h1 with h1
      subst h1
      rw [hv] at h2
      cases h2
    | ok v =>
      have hle := h r v hr hv
      have hnot : ¬ v > 0 := by omega
      dsimp only
      rw [if_neg hnot]
      exact ⟨rfl, fun _ _ _ _ => rfl⟩

/-- Witness of C7: with `rows` -3 nothing is written and the run ends normally. -/
theorem main_writes_nothing_witness :
    stoi "-3" = .ok (-3) ∧ (main cfgNoRows world0).stdout = "" ∧
    (main cfgNoRows world0).status = .ok () := by
  have hrows : cfgNoRows.get_child ["rows"] = .ok (leaf "-3") := rfl
  have hall : ∀ r v, cfgNoRows.get_child ["rows"] = .ok r → stoi r.data = .ok v → v ≤ 0 := by
    intro r v h1 h2
    rw [hrows] at h1
    injection h1 with h1
    subst h1
    have h3 : stoi (leaf "-3").data = .ok (-3) := rfl
    rw [h3] at h2
    injection h2 with h2
    omega
  have hthm := main_writes_nothing cfgNoRows world0 hall
  exact ⟨rfl, hthm.1, hthm.2 (leaf "-3") (-3) hrows rfl⟩

/-! ### C8: field counts -/

theorem countOccurrences_single (c : Char) (s : List Char) :
    countOccurrences [c] 0 s = s.count c := by
  induction s with
  | nil => rfl
  | cons x xs ih =>
    simp only [countOccurrences, List.isPrefixOf, List.length_singleton, Nat.sub_self, ih,
      List.count_cons, Bool.and_true]
    by_cases hx : c = x
    · subst hx; simp; omega
    · have : ¬ x = c := fun h => hx h.symm
      simp [hx, this]

theorem getNext_no_generator (c : ColumnDef) (g : RandState) (h : c.dataGenerator_ = none) :
    c.getNext g = .ok ("", c, g) := by
  unfold ColumnDef.getNext
  rw [h]

theorem values_no_generator (c : ColumnDef) (g : RandState) (h : c.dataGenerator_ = none)
    (n : Nat) : ColumnDef.values n c g = .ok (List.replicate n "", c, g) := by
  induction n with
  | zero => rfl
  | succ n ih => simp only [ColumnDef.values, getNext_no_generator c g h, ih, List.replicate_succ]

/-- C9, as amended: when `rows` is positive and an entry of `columns` has no `data`
block, building the table does not succeed: the driver ends with a configuration error
(an exception, `ptree_bad_path` for `data.generator` when the entry is otherwise
complete) and has written nothing to standard output, no header and no row. A column
that is built without a generator does produce the empty string, without error. -/
theorem main_no_data (pt : PTree) (w : World) (r cols : PTree) (R : Int)
    (hr : pt.walk ["rows"] = some r) (hR : stoi r.data = .ok R) (hpos : 0 < R)
    (hc : pt.walk ["columns"] = some cols)
    (hbad : ∃ kv ∈ cols.children, kv.2.find "data" = none) :
    (main pt w).stdout = "" ∧
    (∃ e, (main pt w).status = .error e ∧ e.isException = true) ∧
    (∀ tp w0, ∃ e, buildColumns cols.children tp w0 = .error e) ∧
    (∀ (c : PTree) (n ty : PTree), c.walk ["name"] = some n → c.walk ["type"] = some ty →
      c.find "data" = none →
      buildColumn c w = .error (.ptree_bad_path ["data", "generator"])) ∧
    (∀ (n ty : String) (g : RandState),
      (ColumnDef.new n ty).getNext g = .ok ("", ColumnDef.new n ty, g)) := by
  have hmain : (main pt w).stdout = "" ∧
      ∃ e, (main pt w).status = .error e ∧ e.isException = true := by
    unfold main
    rw [get_child_of_walk _ _ _ hr]
    simp only [hR, gt_iff_lt, hpos, if_true]
    cases hd : pt.get_child ["delimiter"] with
    | error e => exact ⟨rfl, e, rfl, get_child_error_isException _ _ _ hd⟩
    | ok d =>
      simp only []
      rw [get_child_of_walk _ _ _ hc]
      obtain ⟨e, he, hex⟩ :=
        buildColumns_no_data cols.children (TableDef.new.delimiterIs d.data) w hbad
      dsimp only
      rw [he]
      exact ⟨rfl, e, rfl, hex⟩
  refine ⟨hmain.1, hmain.2, ?_, ?_, ?_⟩
  · intro tp w0
    obtain ⟨e, he, -⟩ := buildColumns_no_data cols.children tp w0 hbad
    exact ⟨e, he⟩
  · intro c n ty hn hty hdata
    have hw : c.walk ["data", "generator"] = none := by simp [PTree.walk, hdata]
    unfold buildColumn
    rw [get_child_of_walk _ _ _ hn, get_child_of_walk _ _ _ hty]
    simp only []
    rw [get_child_of_walk_none _ _ hw]
  · intro n ty g
    exact getNext_no_generator _ g rfl

/-- Witness of C9: one row, one column `a` of type `int` without a `data` block: the
driver reports that the node `data.generator` is missing and writes nothing. -/
theorem main_no_data_witness :
    cfgNoData.walk ["rows"] = some (leaf "1") ∧ stoi "1" = .ok 1 ∧
    (main cfgNoData world0).stdout = "" ∧
    ∃ e, (main cfgNoData world0).status = .error e ∧ e.isException = true := by
  have h := main_no_data cfgNoData world0 (leaf "1")
    (arr [obj [("name", leaf "a"), ("type", leaf "int")]]) 1 rfl rfl (by decide) rfl
    ⟨("", obj [("name", leaf "a"), ("type", leaf "int")]), by simp [arr, PTree.children], rfl⟩
  exact ⟨rfl, rfl, h.1, h.2.1⟩

/-- C9 as stated fails: for the configuration with one row and one column `a` of type
`int` that has no `data` block, the driver does not build the table: it ends with the
exception `ptree_bad_path` for `data.generator`, and no data row is written. -/
theorem main_no_data_counterexample :
    (main cfgNoData world0).status = .error (.ptree_bad_path ["data", "generator"]) ∧
    (main cfgNoData world0).stdout = "" ∧
    buildColumn (obj [("name", leaf "a"), ("type", leaf "int")]) world0
      = .error (.ptree_bad_path ["data", "generator"]) :=
  ⟨rfl, rfl, rfl⟩

/-- C10: for a column entry with a name, a type and a `data.generator` text that is
neither `"sequence"` nor `"random-text"`, the driver builds the column without error,
attaches no generator and leaves the environment as it was; every call of that column's
`getNext`, however many are made, returns the empty string and changes nothing. -/
theorem unknown_generator_empty (c : PTree) (w : World) (n ty gen : PTree)
    (hn : c.walk ["name"] = some n) (hty : c.walk ["type"] = some ty)
    (hg : c.walk ["data", "generator"] = some gen)
    (h1 : gen.data ≠ "sequence") (h2 : gen.data ≠ "random-text") :
    buildColumn c w = .ok (ColumnDef.new n.data ty.data, w) ∧
    (ColumnDef.new n.data ty.data).dataGenerator_ = none ∧
    (∀ g, (ColumnDef.new n.data ty.data).getNext g = .ok ("", ColumnDef.new n.data ty.data, g)) ∧
    (∀ k g, ColumnDef.values k (ColumnDef.new n.data ty.data) g
      = .ok (List.replicate k "", ColumnDef.new n.data ty.data, g)) := by
  refine ⟨?_, rfl, fun g => getNext_no_generator _ g rfl,
    fun k g => values_no_generator _ g rfl k⟩
  have hz1 : string_compare gen.data "random-text" ≠ 0 :=
    fun hh => h2 ((string_compare_eq_zero _ _).1 hh)
  have hz2 : string_compare gen.data "sequence" ≠ 0 :=
    fun hh => h1 ((string_compare_eq_zero _ _).1 hh)
  unfold buildColumn
  rw [get_child_of_walk _ _ _ hn, get_child_of_walk _ _ _ hty, get_child_of_walk _ _ _ hg]
  simp only [hz1, hz2, if_false]

/-- Witness of C10: the entry `note` with generator `uuid` builds a column without a
generator, whose first three values are empty strings. -/
theorem unknown_generator_empty_witness :
    ("uuid" ≠ "sequence") ∧ ("uuid" ≠ "random-text") ∧
    buildColumn entryUnknown world0 = .ok (ColumnDef.new "note" "string", world0) ∧
    ColumnDef.values 3 (ColumnDef.new "note" "string") rngCount
      = .ok (["", "", ""], ColumnDef.new "note" "string", rngCount) := by
  have h := unknown_generator_empty entryUnknown world0 (leaf "note") (leaf "string")
    (leaf "uuid") rfl rfl rfl (by decide) (by decide)
  exact ⟨by decide, by decide, h.1, h.2.2.2 3 rngCount⟩

/-! ### The random-text loop past the range of `int`; the fuel always suffices -/

/-- The loop of `getNext` for a length above `INT_MAX`: the counter `i` runs through
`0 .. 2147483647`, then wraps to a negative value, which as a `size_t` is not below
`len`: the loop ends and the characters from position 2147483648 on are never written. -/
theorem fillLoop_wraps (len n : Nat) (hlo : 2147483648 ≤ len) (hhi : len ≤ string_max_size) :
    ∀ (i fuel : Nat) (res : List Char) (g : RandState), i + n = 2147483648 →
      res.length = len → n < fuel →
      ColumnDataGeneratorText.fillLoop len fuel (wrapInt (i : Int)) res g =
        some (res.take i ++ (randChars n g).1 ++ res.drop 2147483648, (randChars n g).2) := by
  unfold string_max_size at hhi
  induction n with
  | zero =>
    intro i fuel res g hi hres hfuel
    obtain ⟨f, rfl⟩ : ∃ f, fuel = f + 1 := ⟨fuel - 1, by omega⟩
    have hi2 : i = 2147483648 := by omega
    subst hi2
    have hcond : ¬ toSizeT (wrapInt ((2147483648 : Nat) : Int)) < len := by
      unfold toSizeT wrapInt; push_cast; omega
    simp only [ColumnDataGeneratorText.fillLoop, hcond, if_false, randChars, List.append_nil,
      List.take_append_drop]
  | succ n ih =>
    intro i fuel res g hi hres hfuel
    obtain ⟨f, rfl⟩ : ∃ f, fuel = f + 1 := ⟨fuel - 1, by omega⟩
    have hw : wrapInt (i : Int) = (i : Int) := by unfold wrapInt; omega
    have hsz : toSizeT (i : Int) = i := by unfold toSizeT; omega
    have hcond : i < len := by omega
    have hnext : ((i : Int) + 1) = ((i + 1 : Nat) : Int) := by push_cast; rfl
    simp only [ColumnDataGeneratorText.fillLoop, hw, hsz, hcond, if_true, sizeof_alphanum_pred]
    rw [hnext, ih (i + 1) f _ _ (by omega) (by rw [List.length_set]; exact hres) (by omega)]
    rw [take_succ_set _ _ _ (by omega), List.drop_set_of_lt _ _ (by omega)]
    simp [randChars]

theorem getNext_of_len_beyond (t : ColumnDataGeneratorText) (g g1 : RandState) (len : Nat)
    (hlo : 2147483648 ≤ len) (hhi : len ≤ string_max_size)
    (hc : ColumnDataGeneratorText.chooseLen t g = .ok (len, g1)) :
    t.getNext g =
      .ok (String.mk ((randChars 2147483648 g1).1 ++
          List.replicate (len - 2147483648) (Char.ofNat 0)),
        (randChars 2147483648 g1).2) := by
  unfold ColumnDataGeneratorText.getNext
  rw [hc]
  have hmax : ¬ string_max_size < len := by omega
  simp only [hmax, if_false]
  have h := fillLoop_wraps len 2147483648 hlo hhi 0 (len + 1)
    (List.replicate len (Char.ofNat 0)) g1 (by omega) (by simp) (by omega)
  have hw0 : wrapInt ((0 : Nat) : Int) = 0 := by decide
  rw [hw0] at h
  rw [h]
  simp [List.drop_replicate]

/-- In fixed mode with a limit `L` above 2147483648 that a string can have, `getNext`
returns a string of length `L` of which only the first 2147483648 characters are drawn
from the alphabet: the rest keeps the NUL of `string res(len, 0)`. -/
theorem getNext_fixed_beyond_int (t : ColumnDataGeneratorText) (g : RandState)
    (hmode : t.length_ ≠ "variable") (hlo : 2147483648 < t.lengthLimit_)
    (hhi : t.lengthLimit_ ≤ string_max_size) :
    t.getNext g =
      .ok (String.mk ((randChars 2147483648 g).1 ++
          List.replicate (t.lengthLimit_ - 2147483648) (Char.ofNat 0)),
        (randChars 2147483648 g).2) :=
  getNext_of_len_beyond t g g _ (by omega) hhi (chooseLen_fixed t g hmode)

/-- The fuel `getNext` gives its loop always suffices. -/
theorem text_getNext_fuel (t : ColumnDataGeneratorText) (g : RandState) :
    t.getNext g ≠ .error .out_of_fuel := by
  cases hc : ColumnDataGeneratorText.chooseLen t g with
  | error e =>
    have he : e = .division_by_zero := by
      unfold ColumnDataGeneratorText.chooseLen at hc
      split_ifs at hc
      all_goals cases hc
      rfl
    unfold ColumnDataGeneratorText.getNext
    rw [hc, he]
    simp
  | ok r =>
    obtain ⟨len, g1⟩ := r
    by_cases h1 : len ≤ 2147483647
    · rw [getNext_of_len t g g1 len h1 hc]; simp
    · by_cases h2 : len ≤ string_max_size
      · rw [getNext_of_len_beyond t g g1 len (by omega) h2 hc]; simp
      · unfold ColumnDataGeneratorText.getNext
        rw [hc]
        have : string_max_size < len := by omega
        simp [this]

theorem column_getNext_fuel (c : ColumnDef) (g : RandState) :
    c.getNext g ≠ .error .out_of_fuel := by
  obtain ⟨n, ty, d⟩ := c
  cases d with
  | none => simp [ColumnDef.getNext]
  | some gen =>
    cases gen with
    | sequence s => simp [ColumnDef.getNext, ColumnDataGenerator.getNext]
    | text t =>
      have h := text_getNext_fuel t g
      simp only [ColumnDef.getNext, ColumnDataGenerator.getNext]
      cases ht : t.getNext g with
      | error e =>
        rw [ht] at h
        intro hh
        apply h
        injection hh with hh
        rw [hh]
      | ok r => simp

theorem produceAll_fuel (cs : List ColumnDef) :
    ∀ g : RandState, produceAll cs g ≠ .error .out_of_fuel := by
  induction cs with
  | nil => intro g; simp [produceAll]
  | cons c cs ih =>
    intro g
    have hc := column_getNext_fuel c g
    simp only [produceAll]
    cases h1 : c.getNext g with
    | error e =>
      rw [h1] at hc
      intro hh
      apply hc
      injection hh with hh
      rw [hh]
    | ok r =>
      obtain ⟨v, c1, g1⟩ := r
      have h2 := ih g1
      simp only []
      cases h3 : produceAll cs g1 with
      | error e =>
        rw [h3] at h2
        intro hh
        apply h2
        injection hh with hh
        rw [hh]
      | ok r2 => simp

theorem getNextRow_fuel (t : TableDef) (g : RandState) :
    t.getNextRow g ≠ .error .out_of_fuel := by
  have h := produceAll_fuel t.columns_ g
  rw [getNextRow_eq_intercalate]
  cases h3 : produceAll t.columns_ g with
  | error e =>
    rw [h3] at h
    intro hh
    apply h
    injection hh with hh
    rw [hh]
  | ok r => simp

theorem rowLoop_fuel (countRows : Int) (hmax : countRows ≤ INT_MAX) (n : Nat) :
    ∀ (i fuel : Nat) (tp : TableDef) (g : RandState) (out : String),
      (i : Int) + n = countRows → n < fuel →
      (rowLoop countRows fuel i tp g out).status ≠ .error .out_of_fuel := by
  induction n with
  | zero =>
    intro i fuel tp g out hi hfuel
    obtain ⟨f, rfl⟩ : ∃ f, fuel = f + 1 := ⟨fuel - 1, by omega⟩
    have hcond : ¬ (i : Int) < countRows := by omega
    simp [rowLoop, hcond]
  | succ n ih =>
    intro i fuel tp g out hi hfuel
    obtain ⟨f, rfl⟩ : ∃ f, fuel = f + 1 := ⟨fuel - 1, by omega⟩
    have hcond : (i : Int) < countRows := by push_cast at hi; omega
    have hwrap : wrapInt ((i : Int) + 1) = ((i + 1 : Nat) : Int) := by
      unfold wrapInt
      unfold INT_MAX at hmax
      push_cast at hi ⊢
      omega
    have hrow := getNextRow_fuel tp g
    simp only [rowLoop, hcond, if_true]
    cases h1 : tp.getNextRow g with
    | error e =>
      rw [h1] at hrow
      dsimp only
      intro hh
      injection hh with hh
      exact hrow (by rw [hh])
    | ok r =>
      obtain ⟨row, t1, g1⟩ := r
      simp only [hwrap]
      exact ih (i + 1) f t1 g1 _ (by push_cast at hi ⊢; omega) (by omega)

/-- The driver model never stops for lack of fuel: every run of `main` ends normally,
with an exception of the code, or with the division fault. -/
theorem main_fuel (pt : PTree) (w : World) : (main pt w).status ≠ .error .out_of_fuel := by
  unfold main
  cases hr : pt.get_child ["rows"] with
  | error e => rw [get_child_error _ _ _ hr]; simp
  | ok r =>
    simp only []
    cases hv : stoi r.data with
    | error e =>
      have := stoi_error _ _ hv
      dsimp only
      intro hh
      injection hh with hh
      rw [hh] at this
      exact absurd this (by decide)
    | ok v =>
      dsimp only
      by_cases hpos : v > 0
      · rw [if_pos hpos]
        cases hd : pt.get_child ["delimiter"] with
        | error e => rw [get_child_error _ _ _ hd]; simp
        | ok d =>
          dsimp only
          cases hc : pt.get_child ["columns"] with
          | error e => rw [get_child_error _ _ _ hc]; simp
          | ok cols =>
            dsimp only
            cases hb : buildColumns cols.children (TableDef.new.delimiterIs d.data) w with
            | error e =>
              have hex : e.isException = true := by
                have : ∀ (l : List (String × PTree)) tp w0 e0,
                    buildColumns l tp w0 = .error e0 → e0.isException = true := by
                  intro l
                  induction l with
                  | nil => intro tp w0 e0 h; cases h
                  | cons kv rest ih =>
                    intro tp w0 e0 h
                    simp only [buildColumns] at h
                    cases hk : buildColumn kv.2 w0 with
                    | error e1 =>
                      rw [hk] at h
                      injection h with h
                      rw [← h]
                      exact buildColumn_error_isException _ _ _ hk
                    | ok r1 =>
                      obtain ⟨col, w1⟩ := r1
                      rw [hk] at h
                      exact ih _ _ _ h
                exact this _ _ _ _ hb
              dsimp only
              intro hh
              injection hh with hh
              rw [hh] at hex
              exact absurd hex (by decide)
            | ok r1 =>
              obtain ⟨tp1, w1⟩ := r1
              dsimp only
              exact rowLoop_fuel v (stoi_range _ _ hv).2 v.toNat 0 (v.toNat + 1) tp1 w1.rng _
                (by push_cast; omega) (by omega)
      · rw [if_neg hpos]
        simp

/-! ### C11: one sequence column, end to end -/

theorem wrapInt_range (v : Int) : INT_MIN ≤ wrapInt v ∧ wrapInt v ≤ INT_MAX := by
  unfold wrapInt INT_MIN INT_MAX
  omega

theorem wrapInt_wrapInt_add (a b : Int) : wrapInt (wrapInt a + b) = wrapInt (a + b) := by
  unfold wrapInt
  omega

theorem afterCalls_wrap (i : Nat) (s : Int) (hlo : INT_MIN ≤ s) (hhi : s ≤ INT_MAX) :
    ColumnDataGeneratorSequence.afterCalls i { seed_ := s } = { seed_ := wrapInt (s + i) } := by
  induction i generalizing s with
  | zero =>
    simp only [ColumnDataGeneratorSequence.afterCalls, Nat.cast_zero, add_zero]
    rw [wrapInt_of_range s hlo hhi]
  | succ n ih =>
    simp only [ColumnDataGeneratorSequence.afterCalls, ColumnDataGeneratorSequence.getNext]
    rw [ih (wrapInt (s + 1)) (wrapInt_range _).1 (wrapInt_range _).2, wrapInt_wrapInt_add]
    congr 2
    push_cast
    ring

theorem seqTable_getNextRow (nm ty d : String) (s : Int) (g : RandState) :
    (seqTable nm ty d s).getNextRow g = .ok (to_string s, seqTable nm ty d (wrapInt (s + 1)), g) := by
  simp [seqTable, TableDef.getNextRow, TableDef.getNextRowLoop, ColumnDef.getNext,
    ColumnDataGenerator.getNext, ColumnDataGeneratorSequence.getNext]

theorem seqTable_nextRows (nm ty d : String) (n : Nat) :
    ∀ (s : Int) (g : RandState), nextRows n (seqTable nm ty d s) g =
      .ok ((List.range n).map (fun k => (ColumnDataGeneratorSequence.mk s).ithValue k),
        seqTable nm ty d (ColumnDataGeneratorSequence.afterCalls n { seed_ := s }).seed_, g) := by
  induction n with
  | zero => intro s g; rfl
  | succ n ih =>
    intro s g
    simp only [nextRows, seqTable_getNextRow, ih, List.range_succ_eq_map, List.map_cons,
      List.map_map]
    rfl

theorem seqValues_of_fit (s : Int) (n : Nat) (hlo : INT_MIN ≤ s) (hfit : s + n - 1 ≤ INT_MAX) :
    (List.range n).map (fun k => (ColumnDataGeneratorSequence.mk s).ithValue k) =
      (List.range n).map (fun k : Nat => to_string (s + (k : Int))) := by
  apply List.map_congr_left
  intro k hk
  have hk2 : k < n := List.mem_range.mp hk
  unfold ColumnDataGeneratorSequence.ithValue
  rw [afterCalls_seed k s hlo (by omega)]
  rfl

theorem buildColumn_sequence (c : PTree) (w : World) (nn ty gen sd : PTree) (s : Int)
    (hn : c.walk ["name"] = some nn) (hty : c.walk ["type"] = some ty)
    (hg : c.walk ["data", "generator"] = some gen) (hgen : gen.data = "sequence")
    (hsd : c.walk ["data", "seed"] = some sd) (hs : stoi sd.data = .ok s) :
    buildColumn c w =
      .ok ({ name_ := nn.data, type_ := ty.data, dataGenerator_ := some (.sequence { seed_ := s }) },
        w) := by
  have hz1 : string_compare gen.data "random-text" ≠ 0 := by
    rw [hgen]; decide
  have hz2 : string_compare gen.data "sequence" = 0 := (string_compare_eq_zero _ _).2 hgen
  unfold buildColumn
  rw [get_child_of_walk _ _ _ hn, get_child_of_walk _ _ _ hty, get_child_of_walk _ _ _ hg]
  simp only [hz1, hz2, if_false, if_true]
  rw [get_child_of_walk _ _ _ hsd]
  simp only [hs]
  rfl

theorem countOccurrences_of_missing (d : List Char) (c : Char) (hc : c ∈ d) :
    ∀ (s : List Char) (k : Nat), c ∉ s → countOccurrences d k s = 0 := by
  intro s
  induction s with
  | nil => intro k _; cases k <;> rfl
  | cons x xs ih =>
    intro k hs
    have hxs : c ∉ xs := fun h => hs (List.mem_cons_of_mem _ h)
    cases k with
    | succ k => simp only [countOccurrences]; exact ih k hxs
    | zero =>
      have hpre : d.isPrefixOf (x :: xs) = false := by
        by_contra hp
        have hp2 : d.isPrefixOf (x :: xs) = true := by simpa using hp
        exact hs ((List.isPrefixOf_iff_prefix.mp hp2).subset hc)
      simp only [countOccurrences, hpre, Bool.false_eq_true, if_false]
      exact ih 0 hxs

theorem to_string_chars (v : Int) (c : Char) (hc : c ∈ (to_string v).data) :
    c.isDigit = true ∨ c = '-' := by
  rw [to_string_data] at hc
  split at hc
  · rcases List.mem_cons.mp hc with h | h
    · right; exact h
    · left; exact repr_isDigit _ _ h
  · left; exact repr_isDigit _ _ hc

theorem writeLines_chars (ls : List String) (c : Char) (hc : c ∈ (writeLines ls).data) :
    c = Char.ofNat 10 ∨ ∃ l ∈ ls, c ∈ l.data := by
  induction ls with
  | nil => simp [writeLines] at hc
  | cons x xs ih =>
    simp only [writeLines, String.data_append, List.mem_append] at hc
    rcases hc with (h | h) | h
    · right; exact ⟨x, List.mem_cons_self _ _, h⟩
    · left
      have h2 : c = '\n' := by simpa using h
      rw [h2]
    · rcases ih h with h1 | ⟨l, hl, hcl⟩
      · left; exact h1
      · right; exact ⟨l, List.mem_cons_of_mem _ hl, hcl⟩

/-- The driver's run on a configuration with one sequence column: the header is the
column name, the rows are the values of the successive calls, whatever the delimiter. -/
theorem main_single_sequence (pt : PTree) (w : World) (r d cols c nn ty gen sd : PTree)
    (key : String) (R s : Int)
    (hr : pt.walk ["rows"] = some r) (hR : stoi r.data = .ok R) (hpos : 0 < R)
    (hd : pt.walk ["delimiter"] = some d) (hc : pt.walk ["columns"] = some cols)
    (hone : cols.children = [(key, c)])
    (hn : c.walk ["name"] = some nn) (hty : c.walk ["type"] = some ty)
    (hg : c.walk ["data", "generator"] = some gen) (hgen : gen.data = "sequence")
    (hsd : c.walk ["data", "seed"] = some sd) (hs : stoi sd.data = .ok s) :
    main pt w =
      { stdout := writeLines (nn.data ::
          (List.range R.toNat).map (fun k => (ColumnDataGeneratorSequence.mk s).ithValue k)),
        status := .ok () } := by
  have hb : buildColumns cols.children (TableDef.new.delimiterIs d.data) w =
      .ok (seqTable nn.data ty.data d.data s, w) := by
    rw [hone]
    simp only [buildColumns, buildColumn_sequence c w nn ty gen sd s hn hty hg hgen hsd hs]
    rfl
  have hloop := rowLoop_of_nextRows R (stoi_range _ _ hR).2 R.toNat 0 (R.toNat + 1)
    (seqTable nn.data ty.data d.data s) w.rng
    ("" ++ (seqTable nn.data ty.data d.data s).getHeader ++ "\n") _ _ _
    (by push_cast; omega) (by omega) (seqTable_nextRows nn.data ty.data d.data R.toNat s w.rng)
  have hhead : (seqTable nn.data ty.data d.data s).getHeader = nn.data := by
    simp [seqTable, TableDef.getHeader, TableDef.getHeaderLoop, ColumnDef.name]
  unfold main
  rw [get_child_of_walk _ _ _ hr]
  simp only [hR, gt_iff_lt, hpos, if_true]
  rw [get_child_of_walk _ _ _ hd]
  simp only []
  rw [get_child_of_walk _ _ _ hc]
  simp only [hb]
  refine hloop.trans ?_
  rw [hhead]
  simp [writeLines]

/-- C11, as amended: for every configuration with a single column named `n` whose
generator is `"sequence"` with seed `s`, any delimiter, and `rows = R > 0` such that
`s + R - 1` does not exceed `INT_MAX`, the driver ends normally and its output is the
line `n` followed by the `R` lines decimal(`s`), ..., decimal(`s + R - 1`); the
delimiter is inserted nowhere, so it does not occur in the output when one of its
characters is neither in `n` nor a digit, a minus sign or a newline. -/
theorem single_sequence_output (pt : PTree) (w : World) (r d cols c nn ty gen sd : PTree)
    (key : String) (R s : Int)
    (hr : pt.walk ["rows"] = some r) (hR : stoi r.data = .ok R) (hpos : 0 < R)
    (hd : pt.walk ["delimiter"] = some d) (hc : pt.walk ["columns"] = some cols)
    (hone : cols.children = [(key, c)])
    (hn : c.walk ["name"] = some nn) (hty : c.walk ["type"] = some ty)
    (hg : c.walk ["data", "generator"] = some gen) (hgen : gen.data = "sequence")
    (hsd : c.walk ["data", "seed"] = some sd) (hs : stoi sd.data = .ok s)
    (hfit : s + R - 1 ≤ INT_MAX) :
    (main pt w).stdout =
      writeLines (nn.data :: (List.range R.toNat).map (fun k : Nat => to_string (s + (k : Int)))) ∧
    (main pt w).status = .ok () ∧
    (∀ ch ∈ d.data.data, ch ∉ nn.data.data → ch.isDigit = false → ch ≠ '-' →
      ch ≠ Char.ofNat 10 → countOccurrences d.data.data 0 (main pt w).stdout.data = 0) := by
  have hm := main_single_sequence pt w r d cols c nn ty gen sd key R s hr hR hpos hd hc hone
    hn hty hg hgen hsd hs
  have hvals := seqValues_of_fit s R.toNat (stoi_range _ _ hs).1 (by
    have : ((R.toNat : Nat) : Int) = R := Int.toNat_of_nonneg (le_of_lt hpos)
    rw [this]; exact hfit)
  rw [hvals] at hm
  refine ⟨by rw [hm], by rw [hm], ?_⟩
  intro ch hch hname hdig hminus hnl
  apply countOccurrences_of_missing _ ch hch
  rw [hm]
  intro hmem
  rcases writeLines_chars _ _ hmem with h | ⟨l, hl, hcl⟩
  · exact hnl h
  · rcases List.mem_cons.mp hl with h1 | h1
    · rw [h1] at hcl; exact hname hcl
    · obtain ⟨k, -, hk⟩ := List.mem_map.mp h1
      rw [← hk] at hcl
      rcases to_string_chars _ _ hcl with h2 | h2
      · rw [h2] at hdig; exact absurd hdig (by decide)
      · exact hminus h2

/-- Witness of C11: the specification's scenario, `rows` 2, delimiter `|`, the column
`id` with seed `5`: the output is exactly the lines `id`, `5`, `6`, and the delimiter
does not occur in it. -/
theorem single_sequence_output_witness :
    stoi "2" = .ok 2 ∧ stoi "5" = .ok 5 ∧ (5 : Int) + 2 - 1 ≤ INT_MAX ∧
    (main cfgIds world0).stdout = "id\n5\n6\n" ∧
    (main cfgIds world0).status = .ok () ∧
    countOccurrences "|".data 0 (main cfgIds world0).stdout.data = 0 := by
  have h := single_sequence_output cfgIds world0 (leaf "2") (leaf "|")
    (arr [seqEntry "id" "5"]) (seqEntry "id" "5") (leaf "id") (leaf "int") (leaf "sequence")
    (leaf "5") "" 2 5 rfl rfl (by decide) rfl rfl rfl rfl rfl rfl rfl rfl rfl (by decide)
  exact ⟨rfl, rfl, by decide, h.1.trans (by decide), h.2.1,
    h.2.2 '|' (by decide) (by decide) (by decide) (by decide) (by decide)⟩

/-- C11 as stated fails in two ways. From the seed 2147483647 the second of two rows is
`-2147483648`, not the decimal text of 2147483648. With the delimiter `5` and the seed 5
the delimiter does occur in the output, as the row `5`. -/
theorem single_sequence_output_counterexample :
    ((main cfgSeqTop world0).stdout = "id\n2147483647\n-2147483648\n" ∧
      (main cfgSeqTop world0).stdout ≠
        writeLines ["id", to_string 2147483647, to_string (2147483647 + 1)]) ∧
    ((main cfgDelimDigit world0).stdout = "id\n5\n" ∧
      countOccurrences "5".data 0 (main cfgDelimDigit world0).stdout.data = 1) := by
  decide

/-! ### C12: a sequence column and a fixed random-text column -/

theorem seqTextTable_getNextRow (n1 t1 n2 t2 mode : String) (s : Int) (g : RandState)
    (hmode : mode ≠ "variable") :
    (seqTextTable n1 t1 n2 t2 mode s).getNextRow g =
      .ok (to_string s ++ "," ++ String.mk (randChars 4 g).1,
        seqTextTable n1 t1 n2 t2 mode (wrapInt (s + 1)), (randChars 4 g).2) := by
  have ht := getNext_fixed { length_ := mode, lengthLimit_ := 4 } g hmode
    (show (4 : Nat) ≤ 2147483647 by decide)
  simp only [seqTextTable, TableDef.getNextRow, TableDef.getNextRowLoop, ColumnDef.getNext,
    ColumnDataGenerator.getNext, ColumnDataGeneratorSequence.getNext, ht]
  simp

theorem seqTextTable_rowAt (n1 t1 n2 t2 mode : String) (hmode : mode ≠ "variable") (k : Nat) :
    ∀ (s : Int) (g : RandState), INT_MIN ≤ s → s ≤ INT_MAX →
      ∃ g0, (seqTextTable n1 t1 n2 t2 mode s).rowAt k g =
        .ok (to_string (wrapInt (s + k)) ++ "," ++ String.mk (randChars 4 g0).1,
          seqTextTable n1 t1 n2 t2 mode (wrapInt (s + k + 1)), (randChars 4 g0).2) := by
  induction k with
  | zero =>
    intro s g hlo hhi
    refine ⟨g, ?_⟩
    simp only [TableDef.rowAt, seqTextTable_getNextRow _ _ _ _ _ _ _ hmode, Nat.cast_zero,
      add_zero]
    rw [wrapInt_of_range s hlo hhi]
  | succ k ih =>
    intro s g hlo hhi
    obtain ⟨g0, h0⟩ := ih (wrapInt (s + 1)) (randChars 4 g).2 (wrapInt_range _).1
      (wrapInt_range _).2
    refine ⟨g0, ?_⟩
    simp only [TableDef.rowAt, seqTextTable_getNextRow _ _ _ _ _ _ _ hmode, h0]
    have e1 : wrapInt (wrapInt (s + 1) + (k : Int)) = wrapInt (s + ((k + 1 : Nat) : Int)) := by
      unfold wrapInt; push_cast; omega
    have e2 : wrapInt (wrapInt (s + 1) + (k : Int) + 1)
        = wrapInt (s + ((k + 1 : Nat) : Int) + 1) := by
      unfold wrapInt; push_cast; omega
    rw [e1, e2]

theorem alphanum_no_comma : ',' ∉ alphanum.data := by decide

theorem to_string_no_comma (v : Int) : ',' ∉ (to_string v).data := by
  intro h
  rcases to_string_chars _ _ h with h1 | h1
  · exact absurd h1 (by decide)
  · exact absurd h1 (by decide)

/-- C12, as amended: for the table with delimiter `,` and two columns, a sequence from
seed 1 and a fixed-mode random text with length limit 4, for every `k` from 0 to
2147483646 and every state of the random source the data row of index `k` is the decimal
text of `1 + k`, one comma, and exactly 4 characters all drawn from the 63-symbol
alphabet; neither field contains a comma, so the row contains exactly one. -/
theorem two_column_rows (n1 t1 n2 t2 mode : String) (k : Nat) (g : RandState)
    (hmode : mode ≠ "variable") (hk : k ≤ 2147483646) :
    ∃ txt T g1,
      (seqTextTable n1 t1 n2 t2 mode 1).rowAt k g
        = .ok (to_string (1 + (k : Int)) ++ "," ++ txt, T, g1) ∧
      txt.length = 4 ∧
      (∀ c ∈ txt.data, c ∈ alphanum.data ∧ isAlphabetChar c = true) ∧
      ',' ∉ (to_string (1 + (k : Int))).data ∧ ',' ∉ txt.data ∧
      (to_string (1 + (k : Int)) ++ "," ++ txt).data.count ',' = 1 ∧
      fieldCount "," (to_string (1 + (k : Int)) ++ "," ++ txt) = 2 := by
  obtain ⟨g0, h0⟩ := seqTextTable_rowAt n1 t1 n2 t2 mode hmode k 1 g (by decide) (by decide)
  have hw : wrapInt (1 + (k : Int)) = 1 + (k : Int) :=
    wrapInt_of_range _ (by unfold INT_MIN; omega) (by unfold INT_MAX; omega)
  rw [hw] at h0
  have htxt : ',' ∉ (String.mk (randChars 4 g0).1).data :=
    fun h => alphanum_no_comma (randChars_mem _ _ _ h)
  have hleft := to_string_no_comma (1 + (k : Int))
  have hcount : (to_string (1 + (k : Int)) ++ "," ++ String.mk (randChars 4 g0).1).data.count ','
      = 1 := by
    simp only [String.data_append, List.count_append,
      List.count_eq_zero_of_not_mem hleft, List.count_eq_zero_of_not_mem htxt]
    decide
  refine ⟨String.mk (randChars 4 g0).1, _, _, h0, ?_, ?_, hleft, htxt, hcount, ?_⟩
  · simp [String.length, randChars_length]
  · intro c hc
    have := randChars_mem _ _ c hc
    exact ⟨this, alphanum_isAlphabetChar c this⟩
  · unfold fieldCount
    rw [if_neg (by decide)]
    have hd : ",".data = [','] := rfl
    rw [hd, countOccurrences_single, hcount]

/-- Witness of C12: the table `id`, `txt` with the source delivering 0, 1, 2, ...: the
row of index 2 is `3,789A`, the text of 3, one comma and 4 alphabet characters. -/
theorem two_column_rows_witness :
    ("fixed" ≠ "variable") ∧ (2 ≤ 2147483646) ∧
    (tblTwo.rowAt 2 rngCount).toOption.map (fun r => r.1) = some "3,789A" ∧
    ∃ txt T g1, tblTwo.rowAt 2 rngCount = .ok ("3" ++ "," ++ txt, T, g1) ∧ txt.length = 4 ∧
      ("3" ++ "," ++ txt).data.count ',' = 1 := by
  obtain ⟨txt, T, g1, h1, h2, -, -, -, h3, -⟩ :=
    two_column_rows "id" "int" "txt" "string" "fixed" 2 rngCount (by decide) (by decide)
  exact ⟨by decide, by decide, by decide, txt, T, g1, h1, h2, h3⟩

/-- C12 as stated fails for large `k`: the sequence counter is an `int`, and the row of
index 2147483647 starts with `-2147483648`, not with the decimal text of 1 + 2147483647. -/
theorem two_column_rows_counterexample :
    ∃ txt T g1, tblTwo.rowAt 2147483647 rngZero = .ok ("-2147483648" ++ "," ++ txt, T, g1) ∧
      "-2147483648" ≠ to_string (1 + ((2147483647 : Nat) : Int)) := by
  obtain ⟨g0, h0⟩ := seqTextTable_rowAt "id" "int" "txt" "string" "fixed" (by decide)
    2147483647 1 rngZero (by decide) (by decide)
  have hw : wrapInt (1 + ((2147483647 : Nat) : Int)) = -2147483648 := by decide
  have hs : to_string (-2147483648) = "-2147483648" := by decide
  rw [hw, hs] at h0
  exact ⟨_, _, _, h0, by decide⟩

/-! ### C13: configuration errors precede all output -/

theorem chooseLen_error (t : ColumnDataGeneratorText) (g : RandState) (e : Fault)
    (h : ColumnDataGeneratorText.chooseLen t g = .error e) : e = .division_by_zero := by
  unfold ColumnDataGeneratorText.chooseLen at h
  split_ifs at h
  all_goals cases h
  rfl

theorem text_getNext_error (t : ColumnDataGeneratorText) (g : RandState) (e : Fault)
    (h : t.getNext g = .error e) : e.isConfigurationError = false := by
  unfold ColumnDataGeneratorText.getNext at h
  cases hc : ColumnDataGeneratorText.chooseLen t g with
  | error e1 =>
    rw [hc] at h
    dsimp only at h
    injection h with h
    rw [← h, chooseLen_error _ _ _ hc]
    rfl
  | ok r =>
    obtain ⟨len, g1⟩ := r
    rw [hc] at h
    dsimp only at h
    split_ifs at h
    · injection h with h
      rw [← h]; rfl
    · split at h
      · injection h with h
        rw [← h]; rfl
      · cases h

theorem column_getNext_error (c : ColumnDef) (g : RandState) (e : Fault)
    (h : c.getNext g = .error e) : e.isConfigurationError = false := by
  obtain ⟨n, ty, d⟩ := c
  cases d with
  | none => cases h
  | some gen =>
    cases gen with
    | sequence s => cases h
    | text t =>
      simp only [ColumnDef.getNext, ColumnDataGenerator.getNext] at h
      cases ht : t.getNext g with
      | error e1 =>
        rw [ht] at h
        dsimp only at h
        injection h with h
        rw [← h]
        exact text_getNext_error _ _ _ ht
      | ok r =>
        rw [ht] at h
        cases h

theorem produceAll_error (cs : List ColumnDef) :
    ∀ (g : RandState) (e : Fault), produceAll cs g = .error e →
      e.isConfigurationError = false := by
  induction cs with
  | nil => intro g e h; cases h
  | cons c cs ih =>
    intro g e h
    simp only [produceAll] at h
    cases h1 : c.getNext g with
    | error e1 =>
      rw [h1] at h
      dsimp only at h
      injection h with h
      rw [← h]
      exact column_getNext_error _ _ _ h1
    | ok r =>
      obtain ⟨v, c1, g1⟩ := r
      rw [h1] at h
      dsimp only at h
      cases h2 : produceAll cs g1 with
      | error e2 =>
        rw [h2] at h
        dsimp only at h
        injection h with h
        rw [← h]
        exact ih _ _ h2
      | ok r2 =>
        rw [h2] at h
        cases h

/-- A failing `getNextRow` fails with `length_error` or the division fault, never with
an exception of `get_child` or `stoi`. -/
theorem getNextRow_error (t : TableDef) (g : RandState) (e : Fault)
    (h : t.getNextRow g = .error e) : e.isConfigurationError = false := by
  rw [getNextRow_eq_intercalate] at h
  cases h2 : produceAll t.columns_ g with
  | error e2 =>
    rw [h2] at h
    dsimp only at h
    injection h with h
    rw [← h]
    exact produceAll_error _ _ _ h2
  | ok r2 =>
    rw [h2] at h
    cases h

theorem rowLoop_error (countRows : Int) (fuel : Nat) :
    ∀ (i : Int) (tp : TableDef) (g : RandState) (out : String) (e : Fault),
      (rowLoop countRows fuel i tp g out).status = .error e →
      e.isConfigurationError = false := by
  induction fuel with
  | zero =>
    intro i tp g out e h
    simp only [rowLoop] at h
    injection h with h
    rw [← h]; rfl
  | succ f ih =>
    intro i tp g out e h
    simp only [rowLoop] at h
    split_ifs at h
    cases h1 : tp.getNextRow g with
    | error e1 =>
      rw [h1] at h
      dsimp only at h
      injection h with h
      rw [← h]
      exact getNextRow_error _ _ _ h1
    | ok r =>
      obtain ⟨row, t1, g1⟩ := r
      rw [h1] at h
      exact ih _ _ _ _ _ h

theorem main_stdout_of_config_error (pt : PTree) (w : World) (e : Fault)
    (h : (main pt w).status = .error e) (he : e.isConfigurationError = true) :
    (main pt w).stdout = "" := by
  unfold main at h ⊢
  cases hr : pt.get_child ["rows"] with
  | error e1 => rfl
  | ok r =>
    rw [hr] at h
    dsimp only at h ⊢
    cases hv : stoi r.data with
    | error e1 => rfl
    | ok v =>
      rw [hv] at h
      dsimp only at h ⊢
      by_cases hpos : v > 0
      · rw [if_pos hpos] at h ⊢
        cases hd : pt.get_child ["delimiter"] with
        | error e1 => rfl
        | ok d =>
          rw [hd] at h
          dsimp only at h ⊢
          cases hc : pt.get_child ["columns"] with
          | error e1 => rfl
          | ok cols =>
            rw [hc] at h
            dsimp only at h ⊢
            cases hb : buildColumns cols.children (TableDef.new.delimiterIs d.data) w with
            | error e1 => rfl
            | ok r1 =>
              obtain ⟨tp1, w1⟩ := r1
              rw [hb] at h
              dsimp only at h
              have := rowLoop_error _ _ _ _ _ _ _ h
              rw [he] at this
              cases this
      · rw [if_neg hpos]

/-- C13: if a run of the driver ends with a configuration error, that is with an
exception of `get_child` (a missing `rows`, `delimiter`, `columns`, `name`, `type` or
generator-parameter key) or of `std::stoi` (a `rows`, `seed` or `length-limit` that is
no number or no `int`), then nothing has been written to standard output; an error that
ends a run after output has begun is `length_error` or the division fault. -/
theorem config_error_before_output (pt : PTree) (w : World) (e : Fault)
    (h : (main pt w).status = .error e) (he : e.isConfigurationError = true) :
    (main pt w).stdout = "" ∧
    (e = .invalid_argument ∨ e = .out_of_range ∨ ∃ p, e = .ptree_bad_path p) ∧
    (∀ e1, (main pt w).status = .error e1 → (main pt w).stdout ≠ "" →
      e1 = .length_error ∨ e1 = .division_by_zero) := by
  refine ⟨main_stdout_of_config_error pt w e h he, ?_, ?_⟩
  · cases e with
    | ptree_bad_path p => exact Or.inr (Or.inr ⟨p, rfl⟩)
    | invalid_argument => exact Or.inl rfl
    | out_of_range => exact Or.inr (Or.inl rfl)
    | length_error => cases he
    | division_by_zero => cases he
    | out_of_fuel => cases he
  · intro e1 h1 hout
    cases e1 with
    | ptree_bad_path p => exact absurd (main_stdout_of_config_error pt w _ h1 rfl) hout
    | invalid_argument => exact absurd (main_stdout_of_config_error pt w _ h1 rfl) hout
    | out_of_range => exact absurd (main_stdout_of_config_error pt w _ h1 rfl) hout
    | length_error => exact Or.inl rfl
    | division_by_zero => exact Or.inr rfl
    | out_of_fuel => exact absurd h1 (main_fuel pt w)

/-- Witness of C13: two rows asked for, the seed `abc` is no number: the driver ends
with `invalid_argument` and has written nothing. -/
theorem config_error_before_output_witness :
    (main cfgBadSeed world0).status = .error .invalid_argument ∧
    (main cfgBadSeed world0).stdout = "" :=
  ⟨rfl, (config_error_before_output cfgBadSeed world0 .invalid_argument rfl rfl).1⟩

/-- An exception that is not a configuration error can follow output: with the length
limit -1 the header is written, then the first row's `string res(len, 0)` throws
`length_error`. -/
theorem main_negative_limit :
    (main cfgNegLimit world0).status = .error .length_error ∧
    (main cfgNegLimit world0).stdout = "t\n" :=
  ⟨rfl, by decide⟩

/-! ### C14, C16: a column's description and its generator -/

/-- C14: `ColumnDef::str` returns `n ++ "(" ++ t ++ ")"` for a column without generator
and `n ++ "(" ++ t ++ ")<" ++ g ++ ">"` for a column with one, `g` being `"sequence"`
for a sequence generator and `"random-text"` for a random-text generator. The body
assigns to nothing, so the description is a function of the column alone and the column,
its generator included, is after the call what it was before. -/
theorem describe_column (n t : String) :
    (ColumnDef.new n t).str = n ++ "(" ++ t ++ ")" ∧
    (∀ s : ColumnDataGeneratorSequence,
      ((ColumnDef.new n t).addDataGenerator (.sequence s)).str
        = n ++ "(" ++ t ++ ")<" ++ "sequence" ++ ">") ∧
    (∀ x : ColumnDataGeneratorText,
      ((ColumnDef.new n t).addDataGenerator (.text x)).str
        = n ++ "(" ++ t ++ ")<" ++ "random-text" ++ ">") ∧
    (∀ (c : ColumnDef) (d : ColumnDataGenerator),
      c.name_ = n → c.type_ = t → c.dataGenerator_ = some d →
      c.str = n ++ "(" ++ t ++ ")<" ++ d.str ++ ">" ∧
      (d.str = "sequence" ∨ d.str = "random-text")) ∧
    (∀ c : ColumnDef, c.name_ = n → c.type_ = t → c.dataGenerator_ = none →
      c.str = n ++ "(" ++ t ++ ")") := by
  have key : ∀ g : String, n ++ "(" ++ t ++ ")" ++ ("<" ++ g ++ ">")
      = n ++ "(" ++ t ++ ")<" ++ g ++ ">" := by
    intro g
    apply String.ext
    simp [String.data_append]
  refine ⟨?_, ?_, ?_, ?_, ?_⟩
  · simp [ColumnDef.str, ColumnDef.new]
  · intro s
    exact key "sequence"
  · intro x
    exact key "random-text"
  · intro c d hn ht hd
    constructor
    · unfold ColumnDef.str
      rw [hn, ht, hd]
      exact key d.str
    · cases d with
      | sequence s => left; rfl
      | text x => right; rfl
  · intro c hn ht hd
    unfold ColumnDef.str
    rw [hn, ht, hd]
    simp

/-- C16: after `addDataGenerator(g1)` followed by `addDataGenerator(g2)` the column is
the column with only `g2` attached, whatever `g1` was: `str` shows the label of `g2` and
`getNext` yields the values of `g2`, for any number of calls. -/
theorem second_generator_replaces (c : ColumnDef) (g1 g2 : ColumnDataGenerator) :
    (c.addDataGenerator g1).addDataGenerator g2 = c.addDataGenerator g2 ∧
    ((c.addDataGenerator g1).addDataGenerator g2).dataGenerator_ = some g2 ∧
    ((c.addDataGenerator g1).addDataGenerator g2).str
      = c.name_ ++ "(" ++ c.type_ ++ ")" ++ ("<" ++ g2.str ++ ">") ∧
    (∀ g, ((c.addDataGenerator g1).addDataGenerator g2).getNext g = (c.addDataGenerator g2).getNext g) ∧
    (∀ g, ((c.addDataGenerator g1).addDataGenerator g2).getNext g =
      match g2.getNext g with
      | .error e => .error e
      | .ok (v, d, r) => .ok (v, c.addDataGenerator d, r)) ∧
    (∀ k g, ColumnDef.values k ((c.addDataGenerator g1).addDataGenerator g2) g
      = ColumnDef.values k (c.addDataGenerator g2) g) := by
  have h : (c.addDataGenerator g1).addDataGenerator g2 = c.addDataGenerator g2 := rfl
  refine ⟨h, rfl, rfl, fun g => by rw [h], ?_, fun k g => by rw [h]⟩
  intro g
  simp only [ColumnDef.getNext, ColumnDef.addDataGenerator]

/-! ### C15: the delimiter -/

theorem nextRows_delimiter (n : Nat) :
    ∀ (t : TableDef) (g : RandState) (rows : List String) (t2 : TableDef) (g2 : RandState),
      nextRows n t g = .ok (rows, t2, g2) → t2.delimiter_ = t.delimiter_ := by
  induction n with
  | zero =>
    intro t g rows t2 g2 h
    simp only [nextRows, Except.ok.injEq, Prod.mk.injEq] at h
    rw [← h.2.1]
  | succ n ih =>
    intro t g rows t2 g2 h
    simp only [nextRows] at h
    cases h1 : t.getNextRow g with
    | error e => rw [h1] at h; cases h
    | ok r =>
      obtain ⟨row, t1, g1⟩ := r
      rw [h1] at h
      dsimp only at h
      cases h2 : nextRows n t1 g1 with
      | error e => rw [h2] at h; cases h
      | ok r2 =>
        obtain ⟨rows1, t3, g3⟩ := r2
        rw [h2] at h
        simp only [Except.ok.injEq, Prod.mk.injEq] at h
        have hd1 : t1.delimiter_ = t.delimiter_ := by
          unfold TableDef.getNextRow at h1
          split at h1
          · cases h1
          · injection h1 with h1
            injection h1 with _ h1
            injection h1 with h1 _
            rw [← h1]
        rw [← h.2.1, ih t1 g1 rows1 t3 g3 h2, hd1]

/-- C15: a fresh table has the delimiter `","`; `delimiterIs(d)` changes the delimiter
to `d` and nothing else (the columns and their generators stay as they are), and from
then on `getHeader` and every `getNextRow` join with `d`, whatever the delimiter was
before and also for columns added before the call, until it is set again. -/
theorem delimiter_replaced (t : TableDef) (d : String) (g : RandState) :
    TableDef.new.delimiter_ = "," ∧
    (t.delimiterIs d).columns_ = t.columns_ ∧
    (t.delimiterIs d).delimiter_ = d ∧
    (∀ d0, ({ t with delimiter_ := d0 } : TableDef).delimiterIs d = t.delimiterIs d) ∧
    (t.delimiterIs d).getHeader = joinFields d (t.columns_.map ColumnDef.name) ∧
    ((t.delimiterIs d).getNextRow g =
      match produceAll t.columns_ g with
      | .error e => .error e
      | .ok (vs, cs, g1) => .ok (joinFields d vs, { columns_ := cs, delimiter_ := d }, g1)) ∧
    (∀ n rows t2 g2, nextRows n (t.delimiterIs d) g = .ok (rows, t2, g2) →
      t2.delimiter_ = d) ∧
    (∀ c, ((t.delimiterIs d).addColumn c).delimiter_ = d) ∧
    (∀ a b : ColumnDef, ((TableDef.new.addColumn a).addColumn b).getHeader
      = a.name_ ++ "," ++ b.name_) := by
  refine ⟨rfl, rfl, rfl, fun _ => rfl, ?_, ?_, ?_, fun _ => rfl, ?_⟩
  · rw [getHeader_eq_intercalate, intercalate_eq_joinFields]
    rfl
  · rw [getNextRow_eq_intercalate]
    simp only [TableDef.delimiterIs]
    cases produceAll t.columns_ g with
    | error e => rfl
    | ok r => simp [intercalate_eq_joinFields]
  · intro n rows t2 g2 h
    exact nextRows_delimiter n _ g rows t2 g2 h
  · intro a b
    simp [TableDef.new, TableDef.addColumn, TableDef.getHeader, TableDef.getHeaderLoop,
      ColumnDef.name]

/-! ### C17: seeding of the random source -/

theorem randChars_state (n : Nat) :
    ∀ g : RandState, (randChars n g).2 = { stream := fun m => g.stream (m + n) } := by
  induction n with
  | zero => intro g; rfl
  | succ n ih =>
    intro g
    simp only [randChars, ih, rand]
    congr 1

theorem chooseLen_state (t : ColumnDataGeneratorText) (g g0 : RandState) (len : Nat)
    (h : ColumnDataGeneratorText.chooseLen t g = .ok (len, g0)) :
    g0 = g ∨ g0 = (rand g).2 := by
  unfold ColumnDataGeneratorText.chooseLen at h
  split_ifs at h
  · injection h with h
    injection h with _ h
    left; rw [← h]
  · injection h with h
    injection h with _ h
    right; rw [← h]

/-- A call of the random-text `getNext` only advances the random source: the stream it
leaves is the stream it found, with the values it drew removed. -/
theorem text_getNext_advances (t : ColumnDataGeneratorText) (g g1 : RandState) (s : String)
    (h : t.getNext g = .ok (s, g1)) : ∃ k, g1 = { stream := fun m => g.stream (m + k) } := by
  cases hc : ColumnDataGeneratorText.chooseLen t g with
  | error e =>
    unfold ColumnDataGeneratorText.getNext at h
    rw [hc] at h
    cases h
  | ok r =>
    obtain ⟨len, g0⟩ := r
    have hshift : ∀ n, ∃ k, (randChars n g0).2 = { stream := fun m => g.stream (m + k) } := by
      intro n
      rcases chooseLen_state t g g0 len hc with h0 | h0
      · exact ⟨n, by rw [randChars_state, h0]⟩
      · refine ⟨n + 1, ?_⟩
        rw [randChars_state, h0]
        rfl
    by_cases h1 : len ≤ 2147483647
    · rw [getNext_of_len t g g0 len h1 hc] at h
      injection h with h
      injection h with _ h
      rw [← h]
      exact hshift len
    · by_cases h2 : len ≤ string_max_size
      · rw [getNext_of_len_beyond t g g0 len (by omega) h2 hc] at h
        injection h with h
        injection h with _ h
        rw [← h]
        exact hshift 2147483648
      · unfold ColumnDataGeneratorText.getNext at h
        rw [hc] at h
        have : string_max_size < len := by omega
        simp only [this, if_true] at h
        cases h

/-- C17, as amended: every construction of a random-text generator reseeds the
process-wide random source: after the constructor the source is in the state
`srand(time(0))` installs for the current time, whatever its state was before; the
`getNext` calls never reseed, they only advance the one shared stream. -/
theorem text_constructor_reseeds (l : String) (ll : Nat) (w : World) :
    (ColumnDataGeneratorText.new l ll w).1 = { length_ := l, lengthLimit_ := ll } ∧
    (ColumnDataGeneratorText.new l ll w).2.rng = w.seeded (w.clock 0 % 4294967296) ∧
    (∀ r : RandState, (ColumnDataGeneratorText.new l ll { w with rng := r }).2.rng
      = (ColumnDataGeneratorText.new l ll w).2.rng) ∧
    (ColumnDataGeneratorText.new l ll w).2.seeded = w.seeded ∧
    (ColumnDataGeneratorText.new l ll w).2.clock = (fun n => w.clock (n + 1)) ∧
    (∀ (t : ColumnDataGeneratorText) (g g1 : RandState) (s : String),
      t.getNext g = .ok (s, g1) → ∃ k, g1 = { stream := fun m => g.stream (m + k) }) :=
  ⟨rfl, rfl, fun _ => rfl, rfl, rfl, text_getNext_advances⟩

/-- C17 as stated fails: a second construction, one clock reading after the first,
changes the random source (its next value is 1700000001 instead of 1700000000); in the
driver the rows of two random-text columns are drawn from the stream the second
construction installed, so the first field is a space where the first construction's
stream would have given `z`. -/
theorem text_constructor_reseeds_counterexample :
    ((ColumnDataGeneratorText.new "fixed" 4 world0).2.rng.stream 0 = 1700000000 ∧
      (ColumnDataGeneratorText.new "fixed" 4
        (ColumnDataGeneratorText.new "fixed" 4 world0).2).2.rng.stream 0 = 1700000001 ∧
      (ColumnDataGeneratorText.new "fixed" 4
        (ColumnDataGeneratorText.new "fixed" 4 world0).2).2.rng.stream 0 ≠
        (ColumnDataGeneratorText.new "fixed" 4 world0).2.rng.stream 0) ∧
    ((main (config "1" "," [textEntry "a" "fixed" "1"]) world0).stdout = "a\nz\n" ∧
      (main cfgTwoTexts world0).stdout = "a,b\n ,0\n") := by
  decide

/-! ### C19: the counter at the end of the `int` range -/

/-- C19: a call of the sequence `getNext` returns the decimal text of the counter and
leaves as counter the one value of the `int` range that is congruent to `counter + 1`
modulo 2^32: the successor below `INT_MAX`, and `INT_MIN` at `INT_MAX`; so the call of
index `i` returns the text of `s + i` reduced into the `int` range, and from the counter
2147483647 the calls return `"2147483647"`, then `"-2147483648"`. -/
theorem sequence_counter_wraps (s : Int) (i : Nat) (hlo : INT_MIN ≤ s) (hhi : s ≤ INT_MAX) :
    (ColumnDataGeneratorSequence.getNext { seed_ := s }).1 = to_string s ∧
    INT_MIN ≤ (ColumnDataGeneratorSequence.getNext { seed_ := s }).2.seed_ ∧
    (ColumnDataGeneratorSequence.getNext { seed_ := s }).2.seed_ ≤ INT_MAX ∧
    ((ColumnDataGeneratorSequence.getNext { seed_ := s }).2.seed_ - (s + 1)) % 4294967296 = 0 ∧
    (s < INT_MAX → (ColumnDataGeneratorSequence.getNext { seed_ := s }).2.seed_ = s + 1) ∧
    (s = INT_MAX → (ColumnDataGeneratorSequence.getNext { seed_ := s }).2.seed_ = INT_MIN) ∧
    (ColumnDataGeneratorSequence.mk s).ithValue i = to_string (wrapInt (s + i)) ∧
    (ColumnDataGeneratorSequence.mk 2147483647).ithValue 0 = "2147483647" ∧
    (ColumnDataGeneratorSequence.mk 2147483647).ithValue 1 = "-2147483648" := by
  refine ⟨rfl, ?_, ?_, ?_, ?_, ?_, ?_, by decide, by decide⟩
  · exact (wrapInt_range _).1
  · exact (wrapInt_range _).2
  · simp only [ColumnDataGeneratorSequence.getNext]
    unfold wrapInt
    omega
  · intro h
    simp only [ColumnDataGeneratorSequence.getNext]
    unfold wrapInt
    unfold INT_MIN at hlo
    unfold INT_MAX at h
    omega
  · intro h
    simp only [ColumnDataGeneratorSequence.getNext]
    unfold wrapInt INT_MIN
    unfold INT_MAX at h
    omega
  · unfold ColumnDataGeneratorSequence.ithValue
    rw [afterCalls_wrap i s hlo hhi]
    rfl

/-- Witness of C19: from the counter 2147483647 the call of index 1 returns the text of
2147483648 reduced into the `int` range, `"-2147483648"`. -/
theorem sequence_counter_wraps_witness :
    INT_MIN ≤ 2147483647 ∧ (2147483647 : Int) ≤ INT_MAX ∧
    (ColumnDataGeneratorSequence.getNext { seed_ := 2147483647 }).2.seed_ = -2147483648 ∧
    (ColumnDataGeneratorSequence.mk 2147483647).ithValue 1 = "-2147483648" := by
  have h := sequence_counter_wraps 2147483647 1 (by decide) (by decide)
  exact ⟨by decide, by decide, h.2.2.2.2.2.1 rfl, h.2.2.2.2.2.2.2.2⟩

/-! ### C20: the division by the length limit -/

theorem text_getNext_no_division (t : ColumnDataGeneratorText) (g g0 : RandState) (len : Nat)
    (hc : ColumnDataGeneratorText.chooseLen t g = .ok (len, g0)) :
    t.getNext g ≠ .error .division_by_zero := by
  unfold ColumnDataGeneratorText.getNext
  rw [hc]
  dsimp only
  split_ifs
  · intro h; cases h
  · split
    · intro h; cases h
    · intro h; cases h

/-- C20: `getNext` computes a remainder by the length limit only in `"variable"` mode
(in any other mode the length is the limit and no random number is drawn for it), so a
division by zero happens exactly when the mode is `"variable"` and the limit is 0: then
every call reaches it, whatever the random source; in every other case, in particular
whenever the limit is positive, no call does. -/
theorem division_by_zero_iff (t : ColumnDataGeneratorText) (g : RandState) :
    (t.getNext g = .error .division_by_zero ↔ (t.length_ = "variable" ∧ t.lengthLimit_ = 0)) ∧
    (0 < t.lengthLimit_ → t.getNext g ≠ .error .division_by_zero) ∧
    (t.length_ ≠ "variable" →
      ColumnDataGeneratorText.chooseLen t g = .ok (t.lengthLimit_, g)) ∧
    (t.length_ = "variable" → 0 < t.lengthLimit_ →
      ColumnDataGeneratorText.chooseLen t g = .ok ((rand g).1 % t.lengthLimit_, (rand g).2)) := by
  have hpos : 0 < t.lengthLimit_ → t.getNext g ≠ .error .division_by_zero := by
    intro h0
    by_cases hm : t.length_ = "variable"
    · exact text_getNext_no_division t g _ _ (chooseLen_variable t g hm h0)
    · exact text_getNext_no_division t g _ _ (chooseLen_fixed t g hm)
  refine ⟨⟨?_, ?_⟩, hpos, fun hm => chooseLen_fixed t g hm,
    fun hm h0 => chooseLen_variable t g hm h0⟩
  · intro h
    by_cases hm : t.length_ = "variable"
    · refine ⟨hm, ?_⟩
      by_contra h0
      exact hpos (Nat.pos_of_ne_zero h0) h
    · exact absurd h (text_getNext_no_division t g _ _ (chooseLen_fixed t g hm))
  · rintro ⟨hm, h0⟩
    unfold ColumnDataGeneratorText.getNext ColumnDataGeneratorText.chooseLen string_compare
    simp [hm, h0]

/-- Witness of C20: in `"variable"` mode with limit 0 the call ends in the division
fault; with limit 0 in fixed mode it returns the empty string. -/
theorem division_by_zero_iff_witness :
    ColumnDataGeneratorText.getNext { length_ := "variable", lengthLimit_ := 0 } rngCount
      = .error .division_by_zero ∧
    ColumnDataGeneratorText.getNext { length_ := "fixed", lengthLimit_ := 0 } rngCount
      = .ok ("", rngCount) :=
  ⟨(division_by_zero_iff { length_ := "variable", lengthLimit_ := 0 } rngCount).1.2 ⟨rfl, rfl⟩,
    rfl⟩

/-! ### C18: the table's structure under row production -/

theorem generator_getNext_frozen (d d1 : ColumnDataGenerator) (g g1 : RandState) (v : String)
    (h : d.getNext g = .ok (v, d1, g1)) : d1.frozen = d.frozen := by
  cases d with
  | sequence s =>
    simp only [ColumnDataGenerator.getNext, Except.ok.injEq, Prod.mk.injEq] at h
    rw [← h.2.1]
    rfl
  | text t =>
    simp only [ColumnDataGenerator.getNext] at h
    cases ht : t.getNext g with
    | error e => rw [ht] at h; cases h
    | ok r =>
      rw [ht] at h
      simp only [Except.ok.injEq, Prod.mk.injEq] at h
      rw [← h.2.1]

theorem column_getNext_frozen (c c1 : ColumnDef) (g g1 : RandState) (v : String)
    (h : c.getNext g = .ok (v, c1, g1)) : c1.frozen = c.frozen := by
  obtain ⟨n, ty, d⟩ := c
  cases d with
  | none =>
    simp only [ColumnDef.getNext, Except.ok.injEq, Prod.mk.injEq] at h
    rw [← h.2.1]
  | some gen =>
    simp only [ColumnDef.getNext] at h
    cases hg : gen.getNext g with
    | error e => rw [hg] at h; cases h
    | ok r =>
      obtain ⟨v1, d1, g2⟩ := r
      rw [hg] at h
      simp only [Except.ok.injEq, Prod.mk.injEq] at h
      rw [← h.2.1]
      simp only [ColumnDef.frozen, Option.map_some', generator_getNext_frozen _ _ _ _ _ hg]

theorem produceAll_frozen (cs : List ColumnDef) :
    ∀ (g : RandState) (vs : List String) (cs1 : List ColumnDef) (g1 : RandState),
      produceAll cs g = .ok (vs, cs1, g1) →
      cs1.map ColumnDef.frozen = cs.map ColumnDef.frozen := by
  induction cs with
  | nil =>
    intro g vs cs1 g1 h
    simp only [produceAll, Except.ok.injEq, Prod.mk.injEq] at h
    rw [← h.2.1]
  | cons c cs ih =>
    intro g vs cs1 g1 h
    simp only [produceAll] at h
    cases hc : c.getNext g with
    | error e => rw [hc] at h; cases h
    | ok r =>
      obtain ⟨v, c1, g2⟩ := r
      rw [hc] at h
      dsimp only at h
      cases hp : produceAll cs g2 with
      | error e => rw [hp] at h; cases h
      | ok r2 =>
        obtain ⟨vs2, cs2, g3⟩ := r2
        rw [hp] at h
        simp only [Except.ok.injEq, Prod.mk.injEq] at h
        rw [← h.2.1]
        simp only [List.map_cons, column_getNext_frozen _ _ _ _ _ hc, ih _ _ _ _ hp]

theorem getNextRow_frozen (t t1 : TableDef) (g g1 : RandState) (row : String)
    (h : t.getNextRow g = .ok (row, t1, g1)) :
    t1.delimiter_ = t.delimiter_ ∧
    t1.columns_.map ColumnDef.frozen = t.columns_.map ColumnDef.frozen := by
  rw [getNextRow_eq_intercalate] at h
  cases hp : produceAll t.columns_ g with
  | error e => rw [hp] at h; cases h
  | ok r =>
    obtain ⟨vs, cs, g2⟩ := r
    rw [hp] at h
    simp only [Except.ok.injEq, Prod.mk.injEq] at h
    rw [← h.2.1]
    exact ⟨rfl, produceAll_frozen _ _ _ _ _ hp⟩

theorem nextRows_frozen (n : Nat) :
    ∀ (t : TableDef) (g : RandState) (rows : List String) (t2 : TableDef) (g2 : RandState),
      nextRows n t g = .ok (rows, t2, g2) →
      t2.delimiter_ = t.delimiter_ ∧
      t2.columns_.map ColumnDef.frozen = t.columns_.map ColumnDef.frozen ∧ rows.length = n := by
  induction n with
  | zero =>
    intro t g rows t2 g2 h
    simp only [nextRows, Except.ok.injEq, Prod.mk.injEq] at h
    rw [← h.2.1, ← h.1]
    exact ⟨rfl, rfl, rfl⟩
  | succ n ih =>
    intro t g rows t2 g2 h
    simp only [nextRows] at h
    cases h1 : t.getNextRow g with
    | error e => rw [h1] at h; cases h
    | ok r =>
      obtain ⟨row, t1, g1⟩ := r
      rw [h1] at h
      dsimp only at h
      cases h2 : nextRows n t1 g1 with
      | error e => rw [h2] at h; cases h
      | ok r2 =>
        obtain ⟨rows1, t3, g3⟩ := r2
        rw [h2] at h
        simp only [Except.ok.injEq, Prod.mk.injEq] at h
        have hf := getNextRow_frozen _ _ _ _ _ h1
        have hi := ih _ _ _ _ _ h2
        rw [← h.2.1, ← h.1]
        exact ⟨hi.1.trans hf.1, hi.2.1.trans hf.2, by simp [hi.2.2]⟩

/-- What depends only on the frozen column is the same for two column lists with the
same frozen columns. -/
theorem map_of_frozen {β : Type} (f : ColumnDef → β) (hf : ∀ c, f c.frozen = f c)
    (cs1 cs : List ColumnDef) (h : cs1.map ColumnDef.frozen = cs.map ColumnDef.frozen) :
    cs1.map f = cs.map f := by
  have e : ∀ l : List ColumnDef, l.map f = (l.map ColumnDef.frozen).map f := by
    intro l
    rw [List.map_map]
    apply List.map_congr_left
    intro c _
    exact (hf c).symm
  rw [e cs1, e cs, h]

theorem frozen_str (c : ColumnDef) : c.frozen.str = c.str := by
  obtain ⟨n, ty, d⟩ := c
  cases d with
  | none => rfl
  | some gen => cases gen <;> rfl

theorem frozen_label (c : ColumnDef) :
    c.frozen.dataGenerator_.map ColumnDataGenerator.str
      = c.dataGenerator_.map ColumnDataGenerator.str := by
  obtain ⟨n, ty, d⟩ := c
  cases d with
  | none => rfl
  | some gen => cases gen <;> rfl

theorem tableStr_eq (t : TableDef) :
    t.str = (t.columns_.map ColumnDef.str).foldl
      (fun res s => res ++ ("\x7b" ++ s ++ "\x7d\n")) "" := by
  unfold TableDef.str
  rw [List.foldl_map]

/-- C18: when `n` calls of `getNextRow` have been made, the table has the same delimiter
and the same columns in the same order, each with its name, its type label and its
generator of the same variant (a random-text generator is even unchanged; only the
counters of sequence generators and the random source differ), so `getHeader` and `str`
return what they returned before. For a table of well-formed columns every call
succeeds, so this holds after any number of calls. -/
theorem structure_invariant (n : Nat) (t : TableDef) (g : RandState) (rows : List String)
    (t2 : TableDef) (g2 : RandState) (h : nextRows n t g = .ok (rows, t2, g2)) :
    t2.columns_.length = t.columns_.length ∧
    t2.columns_.map ColumnDef.name_ = t.columns_.map ColumnDef.name_ ∧
    t2.columns_.map ColumnDef.type_ = t.columns_.map ColumnDef.type_ ∧
    t2.columns_.map (fun c => c.dataGenerator_.map ColumnDataGenerator.str)
      = t.columns_.map (fun c => c.dataGenerator_.map ColumnDataGenerator.str) ∧
    t2.columns_.map ColumnDef.frozen = t.columns_.map ColumnDef.frozen ∧
    t2.delimiter_ = t.delimiter_ ∧
    t2.getHeader = t.getHeader ∧
    t2.str = t.str ∧
    rows.length = n ∧
    ((∀ c ∈ t.columns_, c.wellFormed) →
      ∀ m g0, ∃ rows1 t3 g3, nextRows m t g0 = .ok (rows1, t3, g3)) := by
  obtain ⟨hd, hf, hl⟩ := nextRows_frozen n t g rows t2 g2 h
  have hname := map_of_frozen ColumnDef.name_ (fun _ => rfl) _ _ hf
  refine ⟨?_, hname, map_of_frozen ColumnDef.type_ (fun _ => rfl) _ _ hf,
    map_of_frozen _ frozen_label _ _ hf, hf, hd, ?_, ?_, hl, ?_⟩
  · have := congrArg List.length hf
    simpa using this
  · rw [getHeader_eq_intercalate, getHeader_eq_intercalate, hd]
    exact congrArg _ hname
  · rw [tableStr_eq, tableStr_eq, map_of_frozen ColumnDef.str frozen_str _ _ hf]
  · intro hwf m g0
    obtain ⟨rows1, t3, g3, h1, -, -⟩ := nextRows_wellFormed m t g0 hwf
    exact ⟨rows1, t3, g3, h1⟩

/-- Witness of C18: after three rows from the table `id`, `txt` the header is still
`id,txt`, and the description of the columns is what it was. -/
theorem structure_invariant_witness :
    ∃ rows t2 g2, nextRows 3 tblTwo rngCount = .ok (rows, t2, g2) ∧
      rows = ["1, 012", "2,3456", "3,789A"] ∧
      t2.getHeader = "id,txt" ∧ t2.str = tblTwo.str ∧ t2.delimiter_ = "," ∧
      t2.columns_.length = 2 := by
  obtain ⟨r, hr⟩ : ∃ r, nextRows 3 tblTwo rngCount
      = .ok (["1, 012", "2,3456", "3,789A"], r) := ⟨_, rfl⟩
  obtain ⟨t2, g2⟩ := r
  have h := structure_invariant 3 tblTwo rngCount _ t2 g2 hr
  exact ⟨_, t2, g2, hr, rfl, h.2.2.2.2.2.2.1.trans (by decide), h.2.2.2.2.2.2.2.1,
    h.2.2.2.2.2.1, h.1⟩

end Datagen
